import Mathlib

/-!
Shallow embedding of the dbus-bytestream crate (marshal.rs, demarshal.rs,
message.rs, connection.rs, dispatch/mod.rs) and proofs about it.

Modelling conventions:
* Rust byte buffers (`Vec<u8>`) are `List Nat`; every byte the encoder produces
  is `< 256`, and the decoder is stated over arbitrary `List Nat` buffers.
* Rust `String`s are modelled by their UTF-8 byte lists (`List Nat`); D-Bus
  signature strings are ASCII, so `String::chars` on them coincides with the
  byte list, and `str::len` with the list length.
* Machine integers are `Nat`/`Int` with explicit `% 2^w` where the Rust code
  can overflow (`as u32`, `as u8` casts, serial increment).
* A Rust panic (index/`remove`/`unwrap` failure or an explicit panic call) is
  the `crash` outcome; fallible code returns the error in the `err` outcome.
* Loops whose termination is not structural take a fuel parameter; running out
  of fuel is the separate `fuelOut` outcome (the Rust code simply keeps
  running), so no real outcome is ever conflated with it.
-/

namespace DBus

/-- ASCII helper: a Lean string literal viewed as its byte list (all strings we
use it on are ASCII, where UTF-8 bytes and code points coincide). -/
def strBytes (s : String) : List Nat := s.data.map Char.toNat

/-- marshal.rs `pad_to_multiple`: append zero bytes until the buffer length is
a multiple of `len`. -/
def pad_to_multiple (buf : List Nat) (len : Nat) : List Nat :=
  buf ++ List.replicate ((len - buf.length % len) % len) 0

/-- Little-endian byte serialization of `x` on `len` bytes (the `transmute` of
`x.to_le` in marshal.rs, reading the first `len` bytes). -/
def le_bytes (x : Nat) (len : Nat) : List Nat :=
  (List.range len).map (fun i => x / 256 ^ i % 256)

/-- Little-endian byte deserialization (inverse direction, used by the
demarshal side when it rebuilds an integer from its buffer bytes). -/
def le_decode (bytes : List Nat) : Nat :=
  bytes.foldr (fun b acc => b + 256 * acc) 0

/-- marshal.rs `marshal_int`: pad to `len`, then append the `len` little-endian
bytes of `x`; returns the new buffer and the count written (excluding
padding), which is always `len`.  The source's `assert!(len <= 8)` holds at
every call site (`len` is one of 1,2,4,8). -/
def marshal_int (x : Nat) (len : Nat) (buf : List Nat) : List Nat × Nat :=
  (pad_to_multiple buf len ++ le_bytes x len, len)

/-- marshal.rs `marshal_double`: pad to 8 and append the 8 bytes of the f64 bit
pattern (the crate assumes a little-endian host, per its own comments); the
double is carried as its 64-bit pattern. -/
def marshal_double (bits : Nat) (buf : List Nat) : List Nat × Nat :=
  (pad_to_multiple buf 8 ++ le_bytes bits 8, 8)

/-- marshal.rs `marshal_string`: 4-byte length prefix (byte count `as u32`),
raw bytes, trailing NUL.  Returns the new buffer and `4 + len + 1`. -/
def marshal_string (s : List Nat) (buf : List Nat) : List Nat × Nat :=
  let len := s.length % 2 ^ 32
  let (buf1, total_len) := marshal_int len 4 buf
  (buf1 ++ s.take len ++ [0], total_len + len + 1)

/-- marshal.rs `marshal_signature`: 1-byte length prefix (byte count `as u8`,
written by `u8::dbus_encode`, i.e. no padding), raw bytes, trailing NUL. -/
def marshal_signature (s : List Nat) (buf : List Nat) : List Nat × Nat :=
  let len := s.length % 2 ^ 8
  (buf ++ [len] ++ s.take len ++ [0], 1 + len + 1)

/-- dbus_serialize `BasicValue`: the basic (dict-key capable) D-Bus values.
Strings/paths/signatures are carried as their UTF-8 byte lists. -/
inductive BasicValue where
  | byte (x : Nat)
  | boolean (b : Bool)
  | int16 (x : Int)
  | uint16 (x : Nat)
  | int32 (x : Int)
  | uint32 (x : Nat)
  | int64 (x : Int)
  | uint64 (x : Nat)
  | string (s : List Nat)
  | objectPath (s : List Nat)
  | signature (s : List Nat)
deriving DecidableEq, Repr

/-- dbus_serialize `Value`: the full D-Bus value sum.  Containers carry their
signature strings exactly as the Rust structs `Array`, `Struct`, `Dictionary`
and `Variant` do (`objects`/`map` plus a `Signature`); `double` carries the
f64 bit pattern.  The dictionary entry list stands for the `HashMap`, in the
(unspecified) order the Rust iterators would produce. -/
inductive Value where
  | basic (b : BasicValue)
  | double (bits : Nat)
  | array (objects : List Value) (sig : List Nat)
  | variant (object : Value) (sig : List Nat)
  | struct (objects : List Value) (sig : List Nat)
  | dictionary (entries : List (BasicValue × Value)) (sig : List Nat)

/-- u64 bit pattern of a signed integer (`x as u64` in Rust). -/
def toU64 (x : Int) : Nat := (x % (2 ^ 64 : Int)).toNat

/-- marshal.rs `impl Marshal for BasicValue` / the per-type impls:
`dbus_encode` for basic values.  Booleans are 4-byte 0/1, `u8` is a raw push
with no padding, strings/paths get 4-byte length prefixes, signatures 1-byte. -/
def encodeBasic (b : BasicValue) (buf : List Nat) : List Nat × Nat :=
  match b with
  | .byte x => (buf ++ [x % 256], 1)
  | .boolean bl => marshal_int (if bl then 1 else 0) 4 buf
  | .int16 x => marshal_int (toU64 x) 2 buf
  | .uint16 x => marshal_int (x % 2 ^ 16) 2 buf
  | .int32 x => marshal_int (toU64 x) 4 buf
  | .uint32 x => marshal_int (x % 2 ^ 32) 4 buf
  | .int64 x => marshal_int (toU64 x) 8 buf
  | .uint64 x => marshal_int (x % 2 ^ 64) 8 buf
  | .string s => marshal_string s buf
  | .objectPath s => marshal_string s buf
  | .signature s => marshal_signature s buf

/-- marshal.rs `impl Marshal for BasicValue`: `get_type` (total on basics). -/
def basic_get_type (b : BasicValue) : List Nat :=
  match b with
  | .byte _ => strBytes "y"
  | .boolean _ => strBytes "b"
  | .int16 _ => strBytes "n"
  | .uint16 _ => strBytes "q"
  | .int32 _ => strBytes "i"
  | .uint32 _ => strBytes "u"
  | .int64 _ => strBytes "x"
  | .uint64 _ => strBytes "t"
  | .string _ => strBytes "s"
  | .objectPath _ => strBytes "o"
  | .signature _ => strBytes "g"

/-- marshal.rs `impl<T> Marshal for Vec<T>` epilogue: given the original
buffer, the buffer after the 4-byte placeholder (`start` is its length) and
the buffer after the elements, patch the placeholder (at `start - 4`) with the
byte count measured from `start`, and return `(array_len as usize) + 4`. -/
def arrayFinish (b2 : List Nat) (start : Nat) : List Nat × Nat :=
  let array_len := (b2.length - start) % 2 ^ 32
  (b2.take (start - 4) ++ le_bytes array_len 4 ++ b2.drop start, array_len + 4)

mutual

/-- marshal.rs `impl Marshal for Value`: `dbus_encode`, dispatching on the
variant exactly as the source match does. -/
def dbus_encode : Value → List Nat → List Nat × Nat
  | .basic b, buf => encodeBasic b buf
  | .double bits, buf => marshal_double bits buf
  | .array objects _, buf =>
    -- impl<T> Marshal for Vec<T>: 4-byte length placeholder of 0 (aligned to
    -- 4 by u32::dbus_encode), the elements, then the patch (`vec_encode`
    -- below is this same composition, as a named wrapper).
    let (b1, _) := marshal_int 0 4 buf
    let b2 := encodeList objects b1
    arrayFinish b2 b1.length
  | .variant object vsig, buf =>
    -- impl Marshal for Variant: signature first, then the payload; the
    -- returned length adds the payload's padding via a buffer-length delta.
    let (b1, len) := marshal_signature vsig buf
    let b2 := (dbus_encode object b1).1
    (b2, len + (b2.length - b1.length))
  | .struct objects _, buf =>
    -- impl Marshal for Struct: pad to 8, then concatenate the fields.
    let b1 := pad_to_multiple buf 8
    let b2 := encodeList objects b1
    (b2, b2.length - b1.length)
  | .dictionary entries _, buf =>
    -- impl Marshal for HashMap: build a Vec<DictEntry> and encode it as an
    -- array (the entry list order stands for the map iteration order).
    let (b1, _) := marshal_int 0 4 buf
    let b2 := encodeEntries entries b1
    arrayFinish b2 b1.length
  termination_by structural v buf => v

/-- Encode a list of values in order, threading the buffer (the `for` loops of
the Struct and Vec impls, which drop the per-element return values). -/
def encodeList : List Value → List Nat → List Nat
  | [], buf => buf
  | v :: rest, buf => encodeList rest (dbus_encode v buf).1
  termination_by structural l buf => l

/-- Encode a list of dict entries in order (marshal.rs `DictEntry`: pad to 8,
key, then value). -/
def encodeEntries : List (BasicValue × Value) → List Nat → List Nat
  | [], buf => buf
  | (k, v) :: rest, buf =>
    let b1 := pad_to_multiple buf 8
    let b2 := (encodeBasic k b1).1
    encodeEntries rest (dbus_encode v b2).1
  termination_by structural l buf => l

end

/-- marshal.rs `impl<T> Marshal for Vec<T>` at `T = Value`: 4-byte length
placeholder of 0 (aligned to 4 by `u32::dbus_encode`), the elements, then the
patch.  No other alignment is introduced by the array itself.  This is
definitionally the `.array` branch of `dbus_encode`. -/
def vec_encode (objects : List Value) (buf : List Nat) : List Nat × Nat :=
  let (b1, _) := marshal_int 0 4 buf
  let b2 := encodeList objects b1
  arrayFinish b2 b1.length

mutual

/-- marshal.rs `impl Marshal for Value`: `get_type`.  `none` models the panics:
`Array` takes the FIRST ELEMENT's type (`iter().next().unwrap()` — no `a`
prefix!), `Dictionary` takes the first key/value pair; both unwraps fail on
empty containers.  `Struct` returns its stored signature. -/
def value_get_type : Value → Option (List Nat)
  | .basic b => some (basic_get_type b)
  | .double _ => some (strBytes "d")
  | .array objects _ =>
    match objects with
    | [] => none
    | v :: _ => value_get_type v
  | .variant _ _ => some (strBytes "v")
  | .struct _ sig => some sig
  | .dictionary entries _ =>
    match entries with
    | [] => none
    | (k, v) :: _ =>
      (value_get_type v).map
        (fun tv => strBytes "a\x7b" ++ basic_get_type k ++ tv ++ strBytes "\x7d")
  termination_by structural v => v

end

/-- marshal.rs `impl<T> Marshal for Vec<T>` at `T = Value`: `get_type` is `"a"`
plus the first element's type (unwrap fails on an empty vector). -/
def vec_get_type (objects : List Value) : Option (List Nat) :=
  match objects with
  | [] => none
  | v :: _ => (value_get_type v).map (fun t => strBytes "a" ++ t)

/-! ## Demarshal (demarshal.rs) -/

/-- demarshal.rs `DemarshalError`. -/
inductive DemarshalError where
  | MessageTooShort
  | CorruptedMessage
  | BadUTF8
  | BadSignature
  | ElementTooBig
  | MismatchedParens
deriving DecidableEq, Repr

/-- Outcome of a demarshal step: success, a `DemarshalError`, a Rust panic
(`crash`), or recursion fuel exhaustion (`fuelOut`, an artifact of the
embedding — the Rust code would just keep running). -/
inductive DRes (α : Type) where
  | ok (v : α)
  | err (e : DemarshalError)
  | crash
  | fuelOut
deriving DecidableEq, Repr

/-- demarshal.rs `get_alignment`.  There is no `'d'` arm in the source; the
catch-all panics ("Bogus type"), modelled as `none`. -/
def get_alignment (sig : Char) : Option Nat :=
  match sig with
  | 'y' => some 1
  | 'b' => some 1
  | 'n' => some 2
  | 'q' => some 2
  | 'i' => some 4
  | 'u' => some 4
  | 'x' => some 8
  | 't' => some 8
  | 's' => some 4
  | 'o' => some 4
  | 'g' => some 1
  | 'a' => some 4
  | '(' => some 8
  | '{' => some 8
  | 'v' => some 1
  | _ => none

/-- demarshal.rs `align_to`: discard bytes until `offset` is a multiple of
`align`; fails with `MessageTooShort` if fewer than the needed `delta` bytes
remain. -/
def align_to (buf : List Nat) (offset : Nat) (align : Nat) :
    DRes (List Nat × Nat) :=
  if offset % align = 0 then .ok (buf, offset)
  else
    let delta := align - offset % align
    if buf.length < delta then .err .MessageTooShort
    else .ok (buf.drop delta, offset + delta)

/-- demarshal.rs `demarshal_byte`: one raw byte, no alignment. -/
def demarshal_byte (buf : List Nat) (offset : Nat) :
    DRes (Value × List Nat × Nat) :=
  match buf with
  | [] => .err .MessageTooShort
  | byte :: rest => .ok (.basic (.byte byte), rest, offset + 1)

/-- demarshal.rs `demarshal_bool`: align to 4, read 4 bytes; the three high
bytes must be zero and the low byte must be 0 or 1, else `CorruptedMessage`. -/
def demarshal_bool (buf : List Nat) (offset : Nat) :
    DRes (Value × List Nat × Nat) :=
  match align_to buf offset 4 with
  | .err e => .err e
  | .crash => .crash
  | .fuelOut => .fuelOut
  | .ok (buf, offset) =>
    if buf.length < 4 then .err .MessageTooShort
    else
      match buf with
      | byte :: b1 :: b2 :: b3 :: rest =>
        if b1 ≠ 0 ∨ b2 ≠ 0 ∨ b3 ≠ 0 then .err .CorruptedMessage
        else
          match byte with
          | 0 => .ok (.basic (.boolean false), rest, offset + 4)
          | 1 => .ok (.basic (.boolean true), rest, offset + 4)
          | _ => .err .CorruptedMessage
      | _ => .err .MessageTooShort

/-- Two's-complement reading of a `w`-bit pattern (the combined effect of the
sign-extension to u64 and the `as i16`/`as i32`/`as i64` cast in
`demarshal_int`). -/
def toSigned (raw : Nat) (w : Nat) : Int :=
  if raw ≥ 2 ^ (w - 1) then (raw : Int) - 2 ^ w else (raw : Int)

/-- demarshal.rs `demarshal_int`: align to `len`, read `len` little-endian
bytes, build the signed or unsigned value of that width.  A `len` outside
{1,2,4,8} (or {2,4,8} when signed) hits the source's panic arms. -/
def demarshal_int (buf : List Nat) (offset : Nat) (len : Nat)
    (is_signed : Bool) : DRes (Value × List Nat × Nat) :=
  match align_to buf offset len with
  | .err e => .err e
  | .crash => .crash
  | .fuelOut => .fuelOut
  | .ok (buf, offset) =>
    if buf.length < len then .err .MessageTooShort
    else
      let raw := le_decode (buf.take len)
      let rest := buf.drop len
      let offset := offset + len
      if is_signed then
        match len with
        | 2 => .ok (.basic (.int16 (toSigned raw 16)), rest, offset)
        | 4 => .ok (.basic (.int32 (toSigned raw 32)), rest, offset)
        | 8 => .ok (.basic (.int64 (toSigned raw 64)), rest, offset)
        | _ => .crash
      else
        match len with
        | 1 => .ok (.basic (.byte raw), rest, offset)
        | 2 => .ok (.basic (.uint16 raw), rest, offset)
        | 4 => .ok (.basic (.uint32 raw), rest, offset)
        | 8 => .ok (.basic (.uint64 raw), rest, offset)
        | _ => .crash

/-- Rust `String::from_utf8` validity (RFC 3629): checks the byte list is
well-formed UTF-8, rejecting overlong forms, surrogates and values above
U+10FFFF, exactly as the Rust validator does. -/
def isValidUtf8 : List Nat → Bool
  | [] => true
  | b0 :: rest =>
    if b0 < 0x80 then isValidUtf8 rest
    else if 0xC2 ≤ b0 ∧ b0 ≤ 0xDF then
      match rest with
      | b1 :: rest2 => (0x80 ≤ b1 ∧ b1 ≤ 0xBF) && isValidUtf8 rest2
      | _ => false
    else if b0 = 0xE0 then
      match rest with
      | b1 :: b2 :: rest2 =>
        (0xA0 ≤ b1 ∧ b1 ≤ 0xBF) && (0x80 ≤ b2 ∧ b2 ≤ 0xBF) && isValidUtf8 rest2
      | _ => false
    else if (0xE1 ≤ b0 ∧ b0 ≤ 0xEC) ∨ b0 = 0xEE ∨ b0 = 0xEF then
      match rest with
      | b1 :: b2 :: rest2 =>
        (0x80 ≤ b1 ∧ b1 ≤ 0xBF) && (0x80 ≤ b2 ∧ b2 ≤ 0xBF) && isValidUtf8 rest2
      | _ => false
    else if b0 = 0xED then
      match rest with
      | b1 :: b2 :: rest2 =>
        (0x80 ≤ b1 ∧ b1 ≤ 0x9F) && (0x80 ≤ b2 ∧ b2 ≤ 0xBF) && isValidUtf8 rest2
      | _ => false
    else if b0 = 0xF0 then
      match rest with
      | b1 :: b2 :: b3 :: rest2 =>
        (0x90 ≤ b1 ∧ b1 ≤ 0xBF) && (0x80 ≤ b2 ∧ b2 ≤ 0xBF) &&
          (0x80 ≤ b3 ∧ b3 ≤ 0xBF) && isValidUtf8 rest2
      | _ => false
    else if 0xF1 ≤ b0 ∧ b0 ≤ 0xF3 then
      match rest with
      | b1 :: b2 :: b3 :: rest2 =>
        (0x80 ≤ b1 ∧ b1 ≤ 0xBF) && (0x80 ≤ b2 ∧ b2 ≤ 0xBF) &&
          (0x80 ≤ b3 ∧ b3 ≤ 0xBF) && isValidUtf8 rest2
      | _ => false
    else if b0 = 0xF4 then
      match rest with
      | b1 :: b2 :: b3 :: rest2 =>
        (0x80 ≤ b1 ∧ b1 ≤ 0x8F) && (0x80 ≤ b2 ∧ b2 ≤ 0xBF) &&
          (0x80 ≤ b3 ∧ b3 ≤ 0xBF) && isValidUtf8 rest2
      | _ => false
    else false

/-- Remove `n` bytes one at a time from the front (the `buf.remove(0)` loop of
`demarshal_string`); `none` models the panic of `remove` on an empty vector. -/
def removeCount (n : Nat) (buf : List Nat) : Option (List Nat × List Nat) :=
  match n, buf with
  | 0, buf => some ([], buf)
  | _ + 1, [] => none
  | n + 1, b :: rest => (removeCount n rest).map (fun p => (b :: p.1, p.2))

/-- Body of demarshal.rs `demarshal_string` after the length prefix has been
decoded: remove `len` bytes and the NUL terminator WITHOUT any length check
(`buf.remove(0)` panics — `crash` — when the buffer runs out), check the NUL,
and validate UTF-8. -/
def demarshal_string_tail (buf : List Nat) (offset : Nat) (count_size : Nat)
    (is_path : Bool) (len : Nat) : DRes (Value × List Nat × Nat) :=
  match removeCount len buf with
  | none => .crash
  | some (strbuf, buf) =>
    match buf with
    | [] => .crash
    | nul :: buf =>
      if nul ≠ 0 then .err .CorruptedMessage
      else
        let offset := offset + len + 1
        if ¬ isValidUtf8 strbuf then .err .BadUTF8
        else if is_path then .ok (.basic (.objectPath strbuf), buf, offset)
        else if count_size = 4 then .ok (.basic (.string strbuf), buf, offset)
        else .ok (.basic (.signature strbuf), buf, offset)

/-- demarshal.rs `demarshal_string`: decode the length prefix through
`demarshal_int` (any non-`Uint32`/`Byte` outcome, including a short buffer,
becomes `CorruptedMessage`), then run the unchecked tail above. -/
def demarshal_string (buf : List Nat) (offset : Nat) (count_size : Nat)
    (is_path : Bool) : DRes (Value × List Nat × Nat) :=
  match demarshal_int buf offset count_size false with
  | .crash => .crash
  | .fuelOut => .fuelOut
  | .ok (.basic (.uint32 len), buf, offset) =>
    demarshal_string_tail buf offset count_size is_path len
  | .ok (.basic (.byte len), buf, offset) =>
    demarshal_string_tail buf offset count_size is_path len
  | _ => .err .CorruptedMessage

/-- Attach the signature remainder to the result of a demarshal helper that
does not itself consume signature characters. -/
def withSig (rest : List Nat) :
    DRes (Value × List Nat × Nat) → DRes (Value × List Nat × Nat × List Nat)
  | .ok (v, buf, offset) => .ok (v, buf, offset, rest)
  | .err e => .err e
  | .crash => .crash
  | .fuelOut => .fuelOut

/-- demarshal.rs `demarshal_array` dictionary coercion: each element must be a
struct of at least two fields whose first field is a basic value (the source
panics otherwise — `none`); insert key/value pairs into the map in order,
`HashMap::insert` overwriting an existing key. -/
def mapInsert (map : List (BasicValue × Value)) (k : BasicValue) (v : Value) :
    List (BasicValue × Value) :=
  if map.any (fun e => e.1 = k) then
    map.map (fun e => if e.1 = k then (k, v) else e)
  else map ++ [(k, v)]

/-- Fold of the dictionary-coercion loop over the decoded element vector. -/
def dictFold : List Value → List (BasicValue × Value) →
    Option (List (BasicValue × Value))
  | [], map => some map
  | x :: rest, map =>
    match x with
    | .struct objs _ =>
      match objs with
      | .basic k :: o1 :: _ => dictFold rest (mapInsert map k o1)
      | _ :: _ :: _ => none
      | _ => none
    | _ => none

/- Signature bytes used in the numeric match arms below:
   121 'y'  98 'b'  110 'n'  113 'q'  105 'i'  117 'u'  120 'x'  116 't'
   115 's'  111 'o'  103 'g'   97 'a'   40 '('  123 '{'  118 'v'   41 ')' -/

mutual

/-- demarshal.rs `demarshal`: remove the first signature byte (panic — `crash`
— on an empty signature, as `String::remove(0)` would) and dispatch.  There is
no `'d'` arm in the source: doubles fall to the catch-all `BadSignature`. -/
def demarshalF : Nat → List Nat → Nat → List Nat →
    DRes (Value × List Nat × Nat × List Nat)
  | 0, _, _, _ => .fuelOut
  | fuel + 1, buf, offset, sig =>
    match sig with
    | [] => .crash
    | typ :: rest =>
      match typ with
      | 121 => withSig rest (demarshal_byte buf offset)               -- 'y'
      | 98 => withSig rest (demarshal_bool buf offset)                -- 'b'
      | 110 => withSig rest (demarshal_int buf offset 2 true)         -- 'n'
      | 113 => withSig rest (demarshal_int buf offset 2 false)        -- 'q'
      | 105 => withSig rest (demarshal_int buf offset 4 true)         -- 'i'
      | 117 => withSig rest (demarshal_int buf offset 4 false)        -- 'u'
      | 120 => withSig rest (demarshal_int buf offset 8 true)         -- 'x'
      | 116 => withSig rest (demarshal_int buf offset 8 false)        -- 't'
      | 115 => withSig rest (demarshal_string buf offset 4 false)     -- 's'
      | 111 => withSig rest (demarshal_string buf offset 4 true)      -- 'o'
      | 103 => withSig rest (demarshal_string buf offset 1 false)     -- 'g'
      | 97 => demarshal_arrayF fuel buf offset rest                   -- 'a'
      | 40 => demarshal_structF fuel buf offset rest                  -- '('
      | 123 => demarshal_structF fuel buf offset rest                 -- '{'
      | 118 => withSig rest (demarshal_variantF fuel buf offset)      -- 'v'
      | _ => .err .BadSignature
  termination_by structural fuel buf offset sig => fuel

/-- demarshal.rs `demarshal_array`: decode the 4-byte length (any other
outcome of `demarshal_int`, short buffers included, becomes
`CorruptedMessage`), reject lengths above `1 << 26` with `ElementTooBig`,
align to the element alignment (panicking — `crash` — on a signature byte
`get_alignment` does not know), bound-check, run the element loop, and
reassemble the consumed element signature as `mysig` (prefixed with `'a'`).
A `'{'` element type coerces the struct vector into a dictionary. -/
def demarshal_arrayF : Nat → List Nat → Nat → List Nat →
    DRes (Value × List Nat × Nat × List Nat)
  | 0, _, _, _ => .fuelOut
  | fuel + 1, buf, offset, sig =>
    if sig.length < 1 then .err .BadSignature
    else
      let typ := sig.headD 0
      let is_dict := typ = 123                                        -- '{'
      match demarshal_int buf offset 4 false with
      | .crash => .crash
      | .fuelOut => .fuelOut
      | .ok (.basic (.uint32 array_len), buf, offset) =>
        if array_len > 2 ^ 26 then .err .ElementTooBig
        else
          match get_alignment (Char.ofNat typ) with
          | none => .crash
          | some al =>
            match align_to buf offset al with
            | .err e => .err e
            | .crash => .crash
            | .fuelOut => .fuelOut
            | .ok (buf, offset) =>
              if buf.length < array_len then .err .MessageTooShort
              else
                match arrayLoopF fuel buf offset sig (offset + array_len)
                    [] [] with
                | .err e => .err e
                | .crash => .crash
                | .fuelOut => .fuelOut
                | .ok (vec, buf, offset, sig_copy) =>
                  let mysig :=
                    97 :: sig.take (sig.length - sig_copy.length)     -- 'a'
                  if is_dict then
                    match dictFold vec [] with
                    | none => .crash
                    | some map =>
                      .ok (.dictionary map mysig, buf, offset, sig_copy)
                  else .ok (.array vec mysig, buf, offset, sig_copy)
      | _ => .err .CorruptedMessage
  termination_by structural fuel buf offset sig => fuel

/-- The `while *offset < start_offset + array_len` loop of `demarshal_array`:
each iteration re-clones the element signature; `lastCopy` carries the
remainder left by the most recent element (initially the empty string). -/
def arrayLoopF : Nat → List Nat → Nat → List Nat → Nat → List Value →
    List Nat → DRes (List Value × List Nat × Nat × List Nat)
  | 0, _, _, _, _, _, _ => .fuelOut
  | fuel + 1, buf, offset, sig, endOff, acc, lastCopy =>
    if offset < endOff then
      match demarshalF fuel buf offset sig with
      | .err e => .err e
      | .crash => .crash
      | .fuelOut => .fuelOut
      | .ok (v, buf, offset, sig_copy) =>
        arrayLoopF fuel buf offset sig endOff (acc ++ [v]) sig_copy
    else .ok (acc, buf, offset, lastCopy)
  termination_by structural fuel buf offset sig endOff acc lastCopy => fuel

/-- demarshal.rs `demarshal_struct`: align to 8, decode fields until the
closing `')'` (note: only `')'` — a dictionary entry's `'}'` is NOT treated as
a terminator by the source), and reassemble the consumed signature prefixed
with `'('`. -/
def demarshal_structF : Nat → List Nat → Nat → List Nat →
    DRes (Value × List Nat × Nat × List Nat)
  | 0, _, _, _ => .fuelOut
  | fuel + 1, buf, offset, sig =>
    if sig.length < 1 then .err .BadSignature
    else
      match align_to buf offset 8 with
      | .err e => .err e
      | .crash => .crash
      | .fuelOut => .fuelOut
      | .ok (buf, offset) =>
        match structLoopF fuel buf offset sig [] with
        | .err e => .err e
        | .crash => .crash
        | .fuelOut => .fuelOut
        | .ok (vec, buf, offset, remaining) =>
          let mysig := 40 :: sig.take (sig.length - remaining.length) -- '('
          .ok (.struct vec mysig, buf, offset, remaining)
  termination_by structural fuel buf offset sig => fuel

/-- The field loop of `demarshal_struct`: an exhausted signature is
`MismatchedParens`; `')'` closes; anything else decodes one field. -/
def structLoopF : Nat → List Nat → Nat → List Nat → List Value →
    DRes (List Value × List Nat × Nat × List Nat)
  | 0, _, _, _, _ => .fuelOut
  | fuel + 1, buf, offset, sig, acc =>
    match sig with
    | [] => .err .MismatchedParens
    | typ :: rest =>
      if typ = 41 then .ok (acc, buf, offset, rest)                   -- ')'
      else
        match demarshalF fuel buf offset sig with
        | .err e => .err e
        | .crash => .crash
        | .fuelOut => .fuelOut
        | .ok (v, buf, offset, sig2) =>
          structLoopF fuel buf offset sig2 (acc ++ [v])
  termination_by structural fuel buf offset sig acc => fuel

/-- demarshal.rs `demarshal_variant`: decode a signature value (signature
`"g"`), then decode one value of that signature; the signature remainder of
the payload decode is discarded. -/
def demarshal_variantF : Nat → List Nat → Nat → DRes (Value × List Nat × Nat)
  | 0, _, _ => .fuelOut
  | fuel + 1, buf, offset =>
    match demarshalF fuel buf offset (strBytes "g") with
    | .err e => .err e
    | .crash => .crash
    | .fuelOut => .fuelOut
    | .ok (sigval, buf, offset, _) =>
      match sigval with
      | .basic (.signature s) =>
        match demarshalF fuel buf offset s with
        | .err e => .err e
        | .crash => .crash
        | .fuelOut => .fuelOut
        | .ok (var, buf, offset, _) => .ok (.variant var s, buf, offset)
      | _ => .err .CorruptedMessage
  termination_by structural fuel buf offset => fuel

end

/-! ## Messages (message.rs) -/

/-- message.rs `HeaderField(u8, Variant)`: a header code paired with a variant
(the variant's payload value and its signature string). -/
structure HeaderFieldM where
  code : Nat
  object : Value
  vsig : List Nat

/-- message.rs `Message` (the body is raw encoded bytes). -/
structure Msg where
  big_endian : Bool := false
  message_type : Nat := 0
  flags : Nat := 0
  version : Nat := 0
  serial : Nat := 0
  headers : List HeaderFieldM := []
  body : List Nat := []

/-- message.rs header-field codes. -/
def HEADER_FIELD_REPLY_SERIAL : Nat := 5
def HEADER_FIELD_SIGNATURE : Nat := 8

/-- message.rs `FLAGS_NO_REPLY_EXPECTED`. -/
def FLAGS_NO_REPLY_EXPECTED : Nat := 1

/-- message.rs `Message::get_header`: the first header field with the given
code. -/
def get_header (m : Msg) (name : Nat) : Option HeaderFieldM :=
  m.headers.find? (fun h => h.code = name)

/-- message.rs `Message::get_signature`: the Signature header's contents, if
the header is present and its payload really is a signature value. -/
def get_signature (m : Msg) : Option (List Nat) :=
  match get_header m HEADER_FIELD_SIGNATURE with
  | some h =>
    match h.object with
    | .basic (.signature s) => some s
    | _ => none
  | none => none

/-- The Signature-header contents of a raw header list (what `get_signature`
computes on `m.headers`; definitionally equal to it). -/
def sigFind (hs : List HeaderFieldM) : Option (List Nat) :=
  match hs.find? (fun h => h.code = HEADER_FIELD_SIGNATURE) with
  | some h =>
    match h.object with
    | .basic (.signature s) => some s
    | _ => none
  | none => none

/-- message.rs `create_method_return`: a fresh `MethodReturn` message carrying
only the `ReplySerial` header (a `u` variant). -/
def create_method_return (reply_serial : Nat) : Msg :=
  { message_type := 2, flags := 0, version := 1, serial := 0,
    headers := [⟨HEADER_FIELD_REPLY_SERIAL, .basic (.uint32 reply_serial),
                 strBytes "u"⟩],
    body := [] }

/-- The signature-push step of `add_arg`: append `t` to the first
code-8 header's signature payload; `none` models the "Garbage in signature
field" panic (payload not a signature) and the impossible missing-header
case. -/
def pushSigStr : List HeaderFieldM → List Nat → Option (List HeaderFieldM)
  | [], _ => none
  | h :: rest, t =>
    if h.code = HEADER_FIELD_SIGNATURE then
      match h.object with
      | .basic (.signature s) =>
        some ({ h with object := .basic (.signature (s ++ t)) } :: rest)
      | _ => none
    else (pushSigStr rest t).map (fun r => h :: r)

/-- message.rs `Message::add_arg` at a `Value` argument: create an empty
Signature header if absent, append the argument's `get_type` to it, and
encode the argument onto the body.  `none` models the panics (an argument
whose `get_type` unwraps an empty container, or a garbage signature field). -/
def add_arg (m : Msg) (arg : Value) : Option Msg :=
  let m :=
    if (get_header m HEADER_FIELD_SIGNATURE).isNone then
      { m with headers := m.headers ++
          [⟨HEADER_FIELD_SIGNATURE, .basic (.signature []), strBytes "g"⟩] }
    else m
  match value_get_type arg with
  | none => none
  | some t =>
    match pushSigStr m.headers t with
    | none => none
    | some hs => some { m with headers := hs, body := (dbus_encode arg m.body).1 }

/-- message.rs `Message::get_body`: `Ok(None)` for an empty body; a non-empty
body without a (well-formed) Signature header is `CorruptedMessage`;
otherwise decode the body against the synthesized struct signature
`"(" + sig + ")"` at offset 0 and return the struct's fields (a non-struct
result would panic, but `'('` always decodes to a struct or an error). -/
def get_body (fuel : Nat) (m : Msg) : DRes (Option (List Value)) :=
  if m.body.length = 0 then .ok none
  else
    match get_signature m with
    | none => .err .CorruptedMessage
    | some sigval =>
      match demarshalF fuel m.body 0 (40 :: sigval ++ [41]) with   -- '(' ')'
      | .ok (.struct objs _, _, _, _) => .ok (some objs)
      | .ok _ => .crash
      | .err e => .err e
      | .crash => .crash
      | .fuelOut => .fuelOut

/-! ## Connection (connection.rs) -/

/-- connection.rs `Connection::next_serial`: return the current counter and
store `current + 1`.  The increment is a plain `u32` addition, i.e. `% 2^32`
(release semantics; a debug build would abort at the wrap). -/
def next_serial (serial : Nat) : Nat × Nat :=
  (serial, (serial + 1) % 2 ^ 32)

/-- The serial counter after `k` sends: `RefCell::new(1)` then `k` increments.
The serial assigned to send number `k` (0-based) is `serialAfter k`. -/
def serialAfter : Nat → Nat
  | 0 => 1
  | k + 1 => (serialAfter k + 1) % 2 ^ 32

/-- connection.rs `Connection::send`: stamp the next serial into the outgoing
message and return it together with the assigned serial and the new counter
value (the socket write itself is not modelled; on success Rust returns the
assigned serial). -/
def send (serial_cell : Nat) (mbuf : Msg) : Msg × Nat × Nat :=
  let (this_serial, counter) := next_serial serial_cell
  ({ mbuf with serial := this_serial }, this_serial, counter)

/-- Connection state for the queueing/serial claims: the serial cell, the
receive queue (front = next `read_msg` result) and a scripted socket — the
stream of already-framed incoming messages `sock_read_msg` would produce. -/
structure ConnState where
  serial : Nat
  queue : List Msg
  socket : List Msg

/-- connection.rs `Connection::push_queue`: pop the local queue front to
front-of-master until empty. -/
def push_queue : List Msg → List Msg → List Msg
  | [], master => master
  | m :: rest, master => push_queue rest (m :: master)

/-- connection.rs `Connection::read_msg`: pop the queue front if non-empty,
else take the next scripted socket message (`none` models blocking forever /
disconnection on an exhausted script). -/
def read_msg (st : ConnState) : Option (Msg × ConnState) :=
  match st.queue with
  | m :: q => some (m, { st with queue := q })
  | [] =>
    match st.socket with
    | m :: s => some (m, { st with socket := s })
    | [] => none

/-- Result of `call_sync`: the reply body (or the demarshal error from
`get_body`) with the post-call connection state; `blocked` models a socket
script that never yields the awaited reply; `crash` models the panics (the
type/flag assertions, or `DBusDecoder::decode::<u32>(..).unwrap()` on a
non-`u32` ReplySerial header). -/
inductive SyncRes where
  | done (r : DRes (Option (List Value))) (st : ConnState)
  | blocked
  | crash

/-- The receive loop of connection.rs `Connection::call_sync`: read messages,
queue the ones whose ReplySerial header is absent or different, and on the
matching serial move the local queue into the connection's queue (via
`push_queue`) and decode the reply body. -/
def call_sync_loop (serial : Nat) (bodyFuel : Nat) (localq : List Msg)
    (st : ConnState) : SyncRes :=
  match h : read_msg st with
  | none => .blocked
  | some (msg, st2) =>
    match msg.headers.find? (fun x => x.code = HEADER_FIELD_REPLY_SERIAL) with
    | none => call_sync_loop serial bodyFuel (localq ++ [msg]) st2
    | some hf =>
      match hf.object with
      | .basic (.uint32 reply_serial) =>
        if reply_serial = serial then
          .done (get_body bodyFuel msg)
            { st2 with queue := push_queue localq st2.queue }
        else call_sync_loop serial bodyFuel (localq ++ [msg]) st2
      | _ => .crash
  termination_by st.queue.length + st.socket.length
  decreasing_by
    all_goals
      simp only [read_msg] at h
      rcases hq : st.queue with _ | ⟨a, q⟩ <;> rw [hq] at h
      · rcases hs : st.socket with _ | ⟨b, s⟩ <;> rw [hs] at h
        · exact absurd h (by simp)
        · injection h with h2
          injection h2 with hmsg hst
          subst hst
          simp_all
      · injection h with h2
        injection h2 with hmsg hst
        subst hst
        simp_all

/-- connection.rs `Connection::call_sync`: assert the message is a method call
without `NO_REPLY_EXPECTED`, send it (stamping the next serial), then run the
receive loop awaiting that serial.  Only the read side of the socket is
modelled; the sent bytes do not affect the scripted incoming stream. -/
def call_sync (st : ConnState) (mbuf : Msg) (bodyFuel : Nat) : SyncRes :=
  if mbuf.message_type ≠ 1 ∨ mbuf.flags.land FLAGS_NO_REPLY_EXPECTED ≠ 0 then
    .crash
  else
    let (serial, counter) := next_serial st.serial
    call_sync_loop serial bodyFuel [] { st with serial := counter }

/-! ## Dispatcher (dispatch/mod.rs) -/

/-- dispatch/mod.rs `MethodRetVal`. -/
inductive MethodRetVal where
  | noReply
  | emptyReply
  | reply (vals : List Value)

/-- dispatch/mod.rs `DispatchError` (the decode-error payload is kept
abstract as its constructor tag; only the constructor matters here). -/
inductive DispatchErrorM where
  | messageDecodeError
  | invalidArguments
  | unhandledMessage
  | otherError (s : List Nat)

/-- A registered method handler, modelled as a pure function from the decoded
call to its result (the sender capability handed to Rust closures is not
modelled; the claim under study only concerns the dispatcher's own send). -/
structure MethodCallM where
  path : List Nat
  iface : List Nat
  member : List Nat

/-- The dispatcher's method-handler map: `(path, interface, member)` keys to
handlers, looked up by key equality (the `HashMap` lookup). -/
abbrev MthHandlers :=
  List ((List Nat × List Nat × List Nat) ×
        (MethodCallM → Except DispatchErrorM MethodRetVal))

/-- Iterated `reply.add_arg(&arg)` over the handler's returned values;
`none` models an `add_arg` panic. -/
def add_args (m : Msg) : List Value → Option Msg
  | [] => some m
  | v :: rest =>
    match add_arg m v with
    | none => none
    | some m2 => add_args m2 rest

/-- dispatch/mod.rs `MessageDispatcher::dispatch_mth`: look up the handler by
`(path, interface, member)`; invoke it; on `NoReply` or when no reply is
expected send nothing; otherwise synthesize `create_method_return(reply_serial)`,
add each returned value as an argument, and send it.  The result pairs the
`DispatchResult` with the list of messages sent (the model's sender always
accepts); `none` is an `add_arg` panic. -/
def dispatch_mth (hs : MthHandlers) (mth : MethodCallM) (reply_serial : Nat)
    (reply_expected : Bool) :
    Option (Except DispatchErrorM Unit × List Msg) :=
  match hs.find? (fun e => e.1 = (mth.path, mth.iface, mth.member)) with
  | none => some (.error .unhandledMessage, [])
  | some e =>
    match e.2 mth with
    | .error d => some (.error d, [])
    | .ok val =>
      match val with
      | .noReply => some (.ok (), [])
      | _ =>
        if reply_expected = false then some (.ok (), [])
        else
          let reply := create_method_return reply_serial
          let args := match val with
                      | .reply r => r
                      | _ => []
          match add_args reply args with
          | none => none
          | some reply2 => some (.ok (), [reply2])

/-- The method-call branch of dispatch/mod.rs `handle_message` (line 270-272):
given that `decode_message` produced the method call `mth` from `msg`,
dispatch with `reply_serial = msg.serial` and
`reply_expected = (msg.flags & NO_REPLY_EXPECTED) == 0`. -/
def handle_method_call (hs : MthHandlers) (msg : Msg) (mth : MethodCallM) :
    Option (Except DispatchErrorM Unit × List Msg) :=
  dispatch_mth hs mth msg.serial (msg.flags.land FLAGS_NO_REPLY_EXPECTED = 0)

/-! ## Further definitions used by the claim statements -/

/-- A signature byte list that contains neither `'a'` (97) nor `'v'` (118):
no nested array can hide inside it (a variant could carry one at runtime). -/
def av_free (sig : List Nat) : Prop := ∀ c ∈ sig, c ≠ 97 ∧ c ≠ 118

/-- The message carries a ReplySerial header decoding to exactly `serial`
(the condition on which `call_sync` accepts a reply). -/
def awaits (serial : Nat) (msg : Msg) : Prop :=
  ∃ hf, msg.headers.find? (fun x => x.code = HEADER_FIELD_REPLY_SERIAL)
          = some hf ∧
    hf.object = .basic (.uint32 serial)

/-- The message is passed over by `call_sync`: either no ReplySerial header,
or a `u32` ReplySerial different from `serial`. -/
def skips (serial : Nat) (msg : Msg) : Prop :=
  msg.headers.find? (fun x => x.code = HEADER_FIELD_REPLY_SERIAL) = none ∨
  ∃ hf rs, msg.headers.find? (fun x => x.code = HEADER_FIELD_REPLY_SERIAL)
             = some hf ∧
    hf.object = .basic (.uint32 rs) ∧ rs ≠ serial

/-- Body bytes produced by adding each value in turn as an argument (the
accumulated encoding of the reply arguments). -/
def args_body (vals : List Value) (buf : List Nat) : List Nat :=
  vals.foldl (fun b v => (dbus_encode v b).1) buf

/-- A scripted incoming message carrying only a `u32` ReplySerial header. -/
def replyMsg (rs : Nat) : Msg :=
  { headers := [⟨HEADER_FIELD_REPLY_SERIAL, .basic (.uint32 rs),
                 strBytes "u"⟩] }

/-- A scripted reply whose body is the single byte 66 with signature `"y"`. -/
def replyMsgBody (rs : Nat) : Msg :=
  { headers := [⟨HEADER_FIELD_REPLY_SERIAL, .basic (.uint32 rs),
                 strBytes "u"⟩,
                ⟨HEADER_FIELD_SIGNATURE, .basic (.signature (strBytes "y")),
                 strBytes "g"⟩],
    body := [66] }

/-- Concrete dispatcher fixture: one handler registered at
`("p", "i", "m")` replying with `Int32 10`. -/
def handlerW : MthHandlers :=
  [((strBytes "p", strBytes "i", strBytes "m"),
    fun _ => .ok (.reply [.basic (.int32 10)]))]

/-- Concrete incoming method call message (serial 44, no flags). -/
def msgW : Msg := { message_type := 1, flags := 0, version := 1, serial := 44 }

/-- The decoded triple of `msgW` matching `handlerW`'s key. -/
def mthW : MethodCallM := ⟨strBytes "p", strBytes "i", strBytes "m"⟩

/-- The method return the dispatcher synthesizes for `msgW` under `handlerW`:
ReplySerial 44, signature `"i"`, body the encoding of `Int32 10`. -/
def replyW : Msg :=
  { message_type := 2, flags := 0, version := 1, serial := 0,
    headers := [⟨HEADER_FIELD_REPLY_SERIAL, .basic (.uint32 44),
                 strBytes "u"⟩,
                ⟨HEADER_FIELD_SIGNATURE, .basic (.signature (strBytes "i")),
                 strBytes "g"⟩],
    body := [10, 0, 0, 0] }

/-! ## Helper lemmas -/

theorem DRes_err_ne_ok {α : Type} (e : DemarshalError) (v : α) :
    (DRes.err e : DRes α) ≠ .ok v := fun h => DRes.noConfusion h

theorem push_queue_eq (l master : List Msg) :
    push_queue l master = l.reverse ++ master := by
  induction l generalizing master with
  | nil => simp [push_queue]
  | cons m rest ih => simp [push_queue, ih]

theorem serialAfter_eq (k : Nat) : serialAfter k = (1 + k) % 2 ^ 32 := by
  induction k with
  | zero => rfl
  | succ k ih =>
    rw [serialAfter, ih]
    omega

/-! ## Claim C4 -/

/-- Claim C4, counterexample: the claim lists `d → 8` in the alignment table
and asserts `get_alignment` is defined there, but the source has no `'d'` arm:
the catch-all panics (`none` in the embedding), so `get_alignment 'd'` is
neither `8` nor defined. -/
theorem C4_counterexample :
    get_alignment 'd' = none ∧ get_alignment 'd' ≠ some 8 := by
  exact ⟨rfl, fun h => Option.noConfusion h⟩

/-- Claim C4 (amended): `get_alignment` returns the table's value on every
listed character except `'d'`: y,b → 1; n,q → 2; i,u,s,o → 4; x,t,(,{ → 8;
g → 1; a → 4; v → 1; on `'d'` (and any other character) it panics
("Bogus type"), modelled as `none`. -/
theorem C4_alignment_table :
    get_alignment 'y' = some 1 ∧ get_alignment 'b' = some 1 ∧
    get_alignment 'n' = some 2 ∧ get_alignment 'q' = some 2 ∧
    get_alignment 'i' = some 4 ∧ get_alignment 'u' = some 4 ∧
    get_alignment 's' = some 4 ∧ get_alignment 'o' = some 4 ∧
    get_alignment 'x' = some 8 ∧ get_alignment 't' = some 8 ∧
    get_alignment '(' = some 8 ∧ get_alignment '{' = some 8 ∧
    get_alignment 'g' = some 1 ∧ get_alignment 'a' = some 4 ∧
    get_alignment 'v' = some 1 ∧ get_alignment 'd' = none := by
  refine ⟨rfl, rfl, rfl, rfl, rfl, rfl, rfl, rfl, rfl, rfl, rfl, rfl, rfl,
    rfl, rfl, rfl⟩

/-! ## Claim C2 -/

/-- Claim C2 (code bug): evaluating the array encoder at the failing inputs.
An empty `Vec` whose element type is 8-aligned encodes to just the 4 length
bytes — no alignment to the element type's alignment is emitted (the claim
and the demarshal side expect 4 padding zeros here); and `Vec<u64> [1]`
stores length 12, counting the 4 alignment-padding bytes that precede the
first element (the claim says the count starts at the first element, i.e. 8).
The dictionary `{Byte 1: Byte 2}` likewise stores 6 instead of 2. -/
theorem C2_array_encoder_at_failing_inputs :
    vec_encode [] [] = ([0, 0, 0, 0], 4) ∧
    vec_encode [.basic (.uint64 1)] []
      = ([12, 0, 0, 0, 0, 0, 0, 0, 1, 0, 0, 0, 0, 0, 0, 0], 16) ∧
    dbus_encode (.dictionary [(.byte 1, .basic (.byte 2))] (strBytes "a\x7byy\x7d"))
      [] = ([6, 0, 0, 0, 0, 0, 0, 0, 1, 2], 10) := by
  refine ⟨rfl, rfl, rfl⟩

/-! ## Claim C1 -/

/-- Claim C1 (code bug): the round-trip fails on whole families of supported
values.  Marshalling an empty array of `u64`s (signature `at`) and
demarshalling it back fails with `MessageTooShort` (the encoder never emits
the element alignment the decoder consumes); a one-entry dictionary
(signature `a{yy}`) fails the same way; and a double cannot be demarshalled
at all — signature `d` has no arm and falls to `BadSignature`. -/
theorem C1_roundtrip_failures :
    demarshalF 99 (dbus_encode (.array [] (strBytes "at")) []).1 0
      (strBytes "at") = .err .MessageTooShort ∧
    demarshalF 99
      (dbus_encode (.dictionary [(.byte 1, .basic (.byte 2))]
        (strBytes "a\x7byy\x7d")) []).1 0 (strBytes "a\x7byy\x7d")
      = .err .MessageTooShort ∧
    demarshalF 99 (dbus_encode (.double 0) []).1 0 (strBytes "d")
      = .err .BadSignature := by
  refine ⟨rfl, rfl, rfl⟩

/-! ## Claim C6 -/

/-- Claim C6, counterexample: the serial assigned to send number `2^32 - 1`
(0-based; the counter having started at 1) is 0, not 1 — the claim says the
counter wraps back to 1 and never assigns 0. -/
theorem C6_counterexample :
    serialAfter (2 ^ 32 - 1) = 0 ∧ serialAfter (2 ^ 32 - 1) ≠ 1 := by
  have h : serialAfter (2 ^ 32 - 1) = 0 := by
    rw [serialAfter_eq]
    norm_num
  exact ⟨h, by rw [h]; exact Nat.zero_ne_one⟩

theorem removeCount_of_le (n : Nat) (buf : List Nat) (h : n ≤ buf.length) :
    removeCount n buf = some (buf.take n, buf.drop n) := by
  induction n generalizing buf with
  | zero => simp [removeCount]
  | succ n ih =>
    match buf with
    | [] => simp at h
    | b :: rest =>
      simp only [removeCount, List.take_succ_cons, List.drop_succ_cons]
      rw [ih rest (by simpa using h)]
      rfl

theorem removeCount_of_gt (n : Nat) (buf : List Nat) (h : buf.length < n) :
    removeCount n buf = none := by
  induction n generalizing buf with
  | zero => simp at h
  | succ n ih =>
    match buf with
    | [] => rfl
    | b :: rest =>
      simp only [removeCount]
      rw [ih rest (by simpa using h)]
      rfl

/-- Claim C6 (amended): the counter starts at 1; every send stamps the
current counter value into the outgoing message, returns it, and stores the
increment mod 2^32 — so on overflow it wraps to 0, not 1, and send number
`2^32 - 1` (0-based) is assigned serial 0 (in general send `k` is assigned
`(1 + k) % 2^32`). -/
theorem C6_serial_counter :
    serialAfter 0 = 1 ∧
    (∀ k, next_serial (serialAfter k) = (serialAfter k, serialAfter (k + 1)))
      ∧
    (∀ k m, send (serialAfter k) m
       = ({ m with serial := serialAfter k }, serialAfter k,
          serialAfter (k + 1))) ∧
    (∀ k, serialAfter k = (1 + k) % 2 ^ 32) ∧
    serialAfter (2 ^ 32 - 1) = 0 := by
  refine ⟨rfl, fun k => rfl, fun k m => rfl, serialAfter_eq, ?_⟩
  rw [serialAfter_eq]
  norm_num

/-! ## Claim C5 -/

/-- Claim C5, counterexample: a message with the non-empty body `[65]` and no
Signature header.  The claim says `get_body` returns `None` when no Signature
header is present; the code returns `Err(CorruptedMessage)` instead (`None`
is reserved for the empty body). -/
theorem C5_counterexample :
    get_body 9 { body := [65] } = .err .CorruptedMessage ∧
    get_body 9 { body := [65] } ≠ .ok none := by
  have h : get_body 9 { body := [65] } = .err .CorruptedMessage := rfl
  exact ⟨h, fun hc => DRes.noConfusion (h.symm.trans hc)⟩

/-- Claim C5 (amended): `get_body()` returns `None` exactly when the body is
empty; a NON-empty body without a (well-formed) Signature header fails with
`CorruptedMessage` rather than returning `None`; and when the Signature
header holds `s`, the non-empty body is decoded using the synthesized struct
signature `"(" ++ s ++ ")"` at offset 0, the decoded field list being
returned. -/
theorem C5_get_body_behavior (fuel : Nat) (m : Msg) :
    (m.body = [] → get_body fuel m = .ok none) ∧
    (m.body ≠ [] → get_signature m = none →
       get_body fuel m = .err .CorruptedMessage) ∧
    (∀ sigval objs ms b o sg, m.body ≠ [] → get_signature m = some sigval →
       demarshalF fuel m.body 0 (40 :: sigval ++ [41])
         = .ok (.struct objs ms, b, o, sg) →
       get_body fuel m = .ok (some objs)) := by
  refine ⟨fun h => by simp [get_body, h], fun h1 h2 => ?_, ?_⟩
  · simp only [get_body, List.length_eq_zero, h2]
    rw [if_neg h1]
  · intro sigval objs ms b o sg h1 h2 h3
    simp only [get_body, List.length_eq_zero, h2, h3]
    rw [if_neg h1]

/-- Witness for C5: a message whose body is the single byte 65 under
signature header `"y"` decodes to the one-field list `[Byte 65]`. -/
theorem C5_get_body_behavior_witness :
    get_body 9 { headers := [⟨HEADER_FIELD_SIGNATURE,
        .basic (.signature (strBytes "y")), strBytes "g"⟩], body := [65] }
      = .ok (some [.basic (.byte 65)]) := by
  exact (C5_get_body_behavior 9 _).2.2 (strBytes "y") [.basic (.byte 65)]
    (strBytes "(y)") [] 1 [] (by simp) rfl rfl

/-! ### add_arg helper lemmas -/

theorem get_signature_eq_sigFind (m : Msg) :
    get_signature m = sigFind m.headers := rfl

theorem sigFind_cons_ne (hd : HeaderFieldM) (l : List HeaderFieldM)
    (hc : ¬ hd.code = HEADER_FIELD_SIGNATURE) :
    sigFind (hd :: l) = sigFind l := by
  simp [sigFind, List.find?_cons, hc]

theorem sigFind_append_of_none (hs : List HeaderFieldM) (x : HeaderFieldM)
    (h : hs.find? (fun h => h.code = HEADER_FIELD_SIGNATURE) = none) :
    sigFind (hs ++ [x]) = sigFind [x] := by
  induction hs with
  | nil => rfl
  | cons hd rest ih =>
    rw [List.find?_cons] at h
    split at h
    · exact absurd h (by simp)
    · rw [List.cons_append, sigFind_cons_ne hd _ (by simp_all), ih h]

theorem pushSigStr_sig (hs : List HeaderFieldM) (t : List Nat)
    (hs2 : List HeaderFieldM) (h : pushSigStr hs t = some hs2) :
    ∃ s, sigFind hs = some s ∧ sigFind hs2 = some (s ++ t) := by
  induction hs generalizing hs2 with
  | nil => simp [pushSigStr] at h
  | cons hd rest ih =>
    by_cases hc : hd.code = HEADER_FIELD_SIGNATURE
    · rw [pushSigStr, if_pos hc] at h
      match ho : hd.object with
      | .basic (.signature s) =>
        rw [ho] at h
        refine ⟨s, ?_, ?_⟩
        · simp [sigFind, List.find?_cons, hc, ho]
        · rw [Option.some_inj] at h
          subst h
          simp [sigFind, List.find?_cons, hc]
      | .basic (.byte x) => rw [ho] at h; exact absurd h (by simp)
      | .basic (.boolean x) => rw [ho] at h; exact absurd h (by simp)
      | .basic (.int16 x) => rw [ho] at h; exact absurd h (by simp)
      | .basic (.uint16 x) => rw [ho] at h; exact absurd h (by simp)
      | .basic (.int32 x) => rw [ho] at h; exact absurd h (by simp)
      | .basic (.uint32 x) => rw [ho] at h; exact absurd h (by simp)
      | .basic (.int64 x) => rw [ho] at h; exact absurd h (by simp)
      | .basic (.uint64 x) => rw [ho] at h; exact absurd h (by simp)
      | .basic (.string x) => rw [ho] at h; exact absurd h (by simp)
      | .basic (.objectPath x) => rw [ho] at h; exact absurd h (by simp)
      | .double x => rw [ho] at h; exact absurd h (by simp)
      | .array x y => rw [ho] at h; exact absurd h (by simp)
      | .variant x y => rw [ho] at h; exact absurd h (by simp)
      | .struct x y => rw [ho] at h; exact absurd h (by simp)
      | .dictionary x y => rw [ho] at h; exact absurd h (by simp)
    · rw [pushSigStr, if_neg hc] at h
      match hr : pushSigStr rest t with
      | none => rw [hr] at h; exact absurd h (by simp)
      | some r2 =>
        rw [hr] at h
        simp only [Option.map_some', Option.some_inj] at h
        obtain ⟨s, h1, h2⟩ := ih r2 hr
        subst h
        exact ⟨s, by rwa [sigFind_cons_ne hd _ hc],
          by rwa [sigFind_cons_ne hd _ hc]⟩

theorem pushSigStr_find_ne (hs : List HeaderFieldM) (t : List Nat)
    (hs2 : List HeaderFieldM) (name : Nat)
    (hn : name ≠ HEADER_FIELD_SIGNATURE) (h : pushSigStr hs t = some hs2) :
    hs2.find? (fun x => x.code = name) = hs.find? (fun x => x.code = name) := by
  induction hs generalizing hs2 with
  | nil => simp [pushSigStr] at h
  | cons hd rest ih =>
    by_cases hc : hd.code = HEADER_FIELD_SIGNATURE
    · rw [pushSigStr, if_pos hc] at h
      match ho : hd.object with
      | .basic (.signature s) =>
        rw [ho] at h
        rw [Option.some_inj] at h
        subst h
        simp only [List.find?_cons]
        have : ¬ hd.code = name := by omega
        simp [this]
      | .basic (.byte x) => rw [ho] at h; exact absurd h (by simp)
      | .basic (.boolean x) => rw [ho] at h; exact absurd h (by simp)
      | .basic (.int16 x) => rw [ho] at h; exact absurd h (by simp)
      | .basic (.uint16 x) => rw [ho] at h; exact absurd h (by simp)
      | .basic (.int32 x) => rw [ho] at h; exact absurd h (by simp)
      | .basic (.uint32 x) => rw [ho] at h; exact absurd h (by simp)
      | .basic (.int64 x) => rw [ho] at h; exact absurd h (by simp)
      | .basic (.uint64 x) => rw [ho] at h; exact absurd h (by simp)
      | .basic (.string x) => rw [ho] at h; exact absurd h (by simp)
      | .basic (.objectPath x) => rw [ho] at h; exact absurd h (by simp)
      | .double x => rw [ho] at h; exact absurd h (by simp)
      | .array x y => rw [ho] at h; exact absurd h (by simp)
      | .variant x y => rw [ho] at h; exact absurd h (by simp)
      | .struct x y => rw [ho] at h; exact absurd h (by simp)
      | .dictionary x y => rw [ho] at h; exact absurd h (by simp)
    · rw [pushSigStr, if_neg hc] at h
      match hr : pushSigStr rest t with
      | none => rw [hr] at h; exact absurd h (by simp)
      | some r2 =>
        rw [hr] at h
        simp only [Option.map_some', Option.some_inj] at h
        subst h
        simp only [List.find?_cons]
        split
        · rfl
        · exact ih r2 hr

theorem add_arg_sig (m : Msg) (arg : Value) (m2 : Msg) (t : List Nat)
    (ht : value_get_type arg = some t) (h : add_arg m arg = some m2) :
    get_signature m2 = some ((get_signature m).getD [] ++ t) := by
  rw [add_arg] at h
  by_cases hnone : (get_header m HEADER_FIELD_SIGNATURE).isNone
  · rw [if_pos hnone, ht] at h
    dsimp only at h
    match hp : pushSigStr (m.headers ++
        [⟨HEADER_FIELD_SIGNATURE, .basic (.signature []), strBytes "g"⟩]) t
        with
    | none => rw [hp] at h; exact absurd h (by simp)
    | some hs =>
      rw [hp] at h
      rw [Option.some_inj] at h
      subst h
      obtain ⟨s, h1, h2⟩ := pushSigStr_sig _ t hs hp
      have hf : m.headers.find? (fun h => h.code = HEADER_FIELD_SIGNATURE)
          = none := by
        have := Option.isNone_iff_eq_none.mp hnone
        exact this
      rw [sigFind_append_of_none _ _ hf] at h1
      have hs0 : s = [] := by
        have : sigFind [⟨HEADER_FIELD_SIGNATURE, .basic (.signature []),
            strBytes "g"⟩] = some [] := rfl
        rw [this] at h1
        exact (Option.some_inj.mp h1).symm
      subst hs0
      rw [get_signature_eq_sigFind]
      dsimp only
      rw [h2]
      simp [get_signature_eq_sigFind, sigFind, hf]
  · rw [if_neg hnone, ht] at h
    dsimp only at h
    match hp : pushSigStr m.headers t with
    | none => rw [hp] at h; exact absurd h (by simp)
    | some hs =>
      rw [hp] at h
      rw [Option.some_inj] at h
      subst h
      obtain ⟨s, h1, h2⟩ := pushSigStr_sig _ t hs hp
      rw [get_signature_eq_sigFind]
      dsimp only
      rw [h2, get_signature_eq_sigFind, h1]
      rfl

theorem add_arg_find_ne (m : Msg) (arg : Value) (m2 : Msg) (name : Nat)
    (hn : name ≠ HEADER_FIELD_SIGNATURE) (h : add_arg m arg = some m2) :
    get_header m2 name = get_header m name := by
  rw [add_arg] at h
  by_cases hnone : (get_header m HEADER_FIELD_SIGNATURE).isNone
  · rw [if_pos hnone] at h
    dsimp only at h
    match ht : value_get_type arg with
    | none => rw [ht] at h; exact absurd h (by simp)
    | some t =>
      rw [ht] at h
      dsimp only at h
      match hp : pushSigStr (m.headers ++
          [⟨HEADER_FIELD_SIGNATURE, .basic (.signature []), strBytes "g"⟩]) t
          with
      | none => rw [hp] at h; exact absurd h (by simp)
      | some hs =>
        rw [hp] at h
        rw [Option.some_inj] at h
        subst h
        show hs.find? _ = _
        rw [pushSigStr_find_ne _ t hs name hn hp]
        rw [List.find?_append]
        have hn8 : ¬ (HEADER_FIELD_SIGNATURE = name) := fun hh => hn hh.symm
        have : ([⟨HEADER_FIELD_SIGNATURE, .basic (.signature []),
            strBytes "g"⟩] : List HeaderFieldM).find?
              (fun x => x.code = name) = none := by
          simp [List.find?_cons, hn8]
        rw [this]
        simp [get_header]
  · rw [if_neg hnone] at h
    match ht : value_get_type arg with
    | none => rw [ht] at h; exact absurd h (by simp)
    | some t =>
      rw [ht] at h
      dsimp only at h
      match hp : pushSigStr m.headers t with
      | none => rw [hp] at h; exact absurd h (by simp)
      | some hs =>
        rw [hp] at h
        rw [Option.some_inj] at h
        subst h
        show hs.find? _ = _
        rw [pushSigStr_find_ne _ t hs name hn hp]
        rfl

theorem add_arg_body (m : Msg) (arg : Value) (m2 : Msg)
    (h : add_arg m arg = some m2) :
    m2.body = (dbus_encode arg m.body).1 := by
  rw [add_arg] at h
  by_cases hnone : (get_header m HEADER_FIELD_SIGNATURE).isNone
  · rw [if_pos hnone] at h
    dsimp only at h
    match ht : value_get_type arg with
    | none => rw [ht] at h; exact absurd h (by simp)
    | some t =>
      rw [ht] at h
      dsimp only at h
      match hp : pushSigStr (m.headers ++
          [⟨HEADER_FIELD_SIGNATURE, .basic (.signature []), strBytes "g"⟩]) t
          with
      | none => rw [hp] at h; exact absurd h (by simp)
      | some hs =>
        rw [hp] at h
        rw [Option.some_inj] at h
        subst h
        rfl
  · rw [if_neg hnone] at h
    match ht : value_get_type arg with
    | none => rw [ht] at h; exact absurd h (by simp)
    | some t =>
      rw [ht] at h
      dsimp only at h
      match hp : pushSigStr m.headers t with
      | none => rw [hp] at h; exact absurd h (by simp)
      | some hs =>
        rw [hp] at h
        rw [Option.some_inj] at h
        subst h
        rfl

theorem add_args_sig (vals : List Value) (m m2 : Msg)
    (ts : List (List Nat)) (hts : vals.mapM value_get_type = some ts)
    (h : add_args m vals = some m2) :
    (get_signature m2).getD [] = (get_signature m).getD [] ++ ts.flatten := by
  induction vals generalizing m ts with
  | nil =>
    rw [add_args, Option.some_inj] at h
    subst h
    simp only [List.mapM_nil, Option.pure_def, Option.some_inj] at hts
    subst hts
    simp
  | cons v rest ih =>
    rw [List.mapM_cons] at hts
    match ht : value_get_type v with
    | none => rw [ht] at hts; exact absurd hts (by simp)
    | some t =>
      rw [ht] at hts
      match hrest : rest.mapM value_get_type with
      | none => rw [hrest] at hts; exact absurd hts (by simp)
      | some ts2 =>
        rw [hrest] at hts
        simp at hts
        subst hts
        rw [add_args] at h
        match ha : add_arg m v with
        | none => rw [ha] at h; exact absurd h (by simp)
        | some m1 =>
          rw [ha] at h
          have h1 := add_arg_sig m v m1 t ht ha
          rw [ih m1 ts2 hrest h, h1]
          simp

theorem add_args_find_ne (vals : List Value) (m m2 : Msg) (name : Nat)
    (hn : name ≠ HEADER_FIELD_SIGNATURE) (h : add_args m vals = some m2) :
    get_header m2 name = get_header m name := by
  induction vals generalizing m with
  | nil =>
    rw [add_args, Option.some_inj] at h
    subst h
    rfl
  | cons v rest ih =>
    rw [add_args] at h
    match ha : add_arg m v with
    | none => rw [ha] at h; exact absurd h (by simp)
    | some m1 =>
      rw [ha] at h
      rw [ih m1 h, add_arg_find_ne m v m1 name hn ha]

theorem add_args_body (vals : List Value) (m m2 : Msg)
    (h : add_args m vals = some m2) :
    m2.body = args_body vals m.body := by
  induction vals generalizing m with
  | nil =>
    rw [add_args, Option.some_inj] at h
    subst h
    rfl
  | cons v rest ih =>
    rw [add_args] at h
    match ha : add_arg m v with
    | none => rw [ha] at h; exact absurd h (by simp)
    | some m1 =>
      rw [ha] at h
      rw [ih m1 h]
      simp only [args_body, List.foldl_cons]
      rw [add_arg_body m v m1 ha]

/-! ## Claim C10 -/

/-- Claim C10: `demarshal_string` bound-checks only while decoding the length
prefix.  Whenever the length prefix decodes (through `demarshal_int`, as a
`u32` for `s`/`o` or a byte for `g`) to `lenv` leaving buffer `buf1`, the
remainder of the function removes `lenv + 1` further bytes unchecked: it
panics (`crash`, from `Vec::remove` on an empty vector) exactly when `buf1`
holds fewer than `lenv + 1` bytes, and never panics otherwise (returning
`CorruptedMessage`/`BadUTF8`/a value instead of `MessageTooShort`). -/
theorem C10_demarshal_string_unchecked (buf : List Nat)
    (offset count_size : Nat) (is_path : Bool) (lenv : Nat) (buf1 : List Nat)
    (off1 : Nat)
    (h : demarshal_int buf offset count_size false
           = .ok (.basic (.uint32 lenv), buf1, off1) ∨
         demarshal_int buf offset count_size false
           = .ok (.basic (.byte lenv), buf1, off1)) :
    (lenv + 1 ≤ buf1.length →
       demarshal_string buf offset count_size is_path ≠ .crash) ∧
    (buf1.length < lenv + 1 →
       demarshal_string buf offset count_size is_path = .crash) := by
  have htail : ∀ off2,
      (lenv + 1 ≤ buf1.length →
        demarshal_string_tail buf1 off2 count_size is_path lenv ≠ .crash) ∧
      (buf1.length < lenv + 1 →
        demarshal_string_tail buf1 off2 count_size is_path lenv = .crash) := by
    intro off2
    constructor
    · intro hlen
      have hrc := removeCount_of_le lenv buf1 (by omega)
      have hdrop : buf1.drop lenv ≠ [] := by
        intro hd
        have := List.length_drop lenv buf1
        rw [hd] at this
        simp at this
        omega
      unfold demarshal_string_tail
      rw [hrc]
      match hd : buf1.drop lenv with
      | [] => exact absurd hd hdrop
      | nul :: rest =>
        simp only []
        split
        · exact fun hc => DRes.noConfusion hc
        · split
          · exact fun hc => DRes.noConfusion hc
          · split
            · exact fun hc => DRes.noConfusion hc
            · split
              · exact fun hc => DRes.noConfusion hc
              · exact fun hc => DRes.noConfusion hc
    · intro hlen
      unfold demarshal_string_tail
      rcases Nat.lt_or_ge buf1.length lenv with hl | hl
      · rw [removeCount_of_gt lenv buf1 hl]
      · have hlen2 : buf1.length = lenv := by omega
        rw [removeCount_of_le lenv buf1 (by omega)]
        have hdrop : buf1.drop lenv = [] := by
          apply List.eq_nil_of_length_eq_zero
          simp [hlen2]
        rw [hdrop]
  rcases h with h | h <;>
    · constructor
      · intro hlen
        unfold demarshal_string
        rw [h]
        exact (htail _).1 hlen
      · intro hlen
        unfold demarshal_string
        rw [h]
        exact (htail _).2 hlen

/-- Witness for C10: the buffer `[2,0,0,0,65]` declares string length 2 but
only 1 byte follows the prefix, so `demarshal_string` panics; the well-formed
`[3,0,0,0,65,66,67,0]` does not. -/
theorem C10_demarshal_string_unchecked_witness :
    demarshal_string [2, 0, 0, 0, 65] 0 4 false = .crash ∧
    demarshal_string [3, 0, 0, 0, 65, 66, 67, 0] 0 4 false ≠ .crash := by
  constructor
  · exact (C10_demarshal_string_unchecked [2, 0, 0, 0, 65] 0 4 false 2 [65] 4
      (Or.inl rfl)).2 (by norm_num)
  · exact (C10_demarshal_string_unchecked [3, 0, 0, 0, 65, 66, 67, 0] 0 4
      false 3 [65, 66, 67, 0] 4 (Or.inl rfl)).1 (by norm_num)

/-! ## Claim C9 -/

/-- Claim C9, counterexample: for a `Value::Array` whose first element is a
dictionary, `get_type` (and hence the signature `add_arg` appends) is
`"a{yy}"` — which DOES denote an array type (it starts with `'a'` = 97),
contradicting the claim's "appends a signature ... that does not denote an
array"; it is merely the wrong array type, one `'a'` level short. -/
theorem C9_counterexample :
    value_get_type (.array [.dictionary [(.byte 1, .basic (.byte 2))]
        (strBytes "a\x7byy\x7d")] (strBytes "aa\x7byy\x7d")) = some (strBytes "a\x7byy\x7d") ∧
    Option.map get_signature (add_arg {}
        (.array [.dictionary [(.byte 1, .basic (.byte 2))]
          (strBytes "a\x7byy\x7d")] (strBytes "aa\x7byy\x7d")))
      = some (some (strBytes "a\x7byy\x7d")) ∧
    (strBytes "a\x7byy\x7d").headD 0 = 97 := by
  refine ⟨rfl, rfl, rfl⟩

/-- Claim C9 (amended): `get_type` on a non-empty `Value::Array` returns only
the first element's signature, with no leading `'a'` (unlike `Vec<T>`'s
`get_type`, which prepends `'a'` to it), so `add_arg` appends exactly the
element's signature to the Signature header — a string that denotes an array
only in the corner case where the first element is itself of array or
dictionary type (it is one `'a'` level short either way); and on an empty
`Value::Array` or empty `Value::Dictionary`, `get_type` is undefined (it
unwraps a missing first element). -/
theorem C9_value_array_get_type :
    (∀ (v : Value) (vs : List Value) (s : List Nat),
       value_get_type (.array (v :: vs) s) = value_get_type v) ∧
    (∀ (v : Value) (vs : List Value) (t : List Nat),
       value_get_type v = some t →
       vec_get_type (v :: vs) = some (97 :: t)) ∧
    (∀ s : List Nat, value_get_type (.array [] s) = none) ∧
    (∀ s : List Nat, value_get_type (.dictionary [] s) = none) ∧
    (∀ (m : Msg) (v : Value) (vs : List Value) (s t : List Nat) (m2 : Msg),
       value_get_type v = some t →
       add_arg m (.array (v :: vs) s) = some m2 →
       get_signature m2 = some ((get_signature m).getD [] ++ t)) := by
  refine ⟨fun v vs s => rfl, ?_, fun s => rfl, fun s => rfl, ?_⟩
  · intro v vs t ht
    simp [vec_get_type, ht, strBytes]
  · intro m v vs s t m2 ht ha
    exact add_arg_sig m _ m2 t (by rw [show value_get_type
      (.array (v :: vs) s) = value_get_type v from rfl, ht]) ha

/-- Witness for C9: a one-element `u32` array has `get_type` `"u"` (no `a`),
`Vec`'s own `get_type` would be `"au"`, and `add_arg` on an empty message
leaves `"u"` in the Signature header. -/
theorem C9_value_array_get_type_witness :
    value_get_type (.array [.basic (.uint32 7)] (strBytes "au"))
      = some (strBytes "u") ∧
    vec_get_type [.basic (.uint32 7)] = some (97 :: strBytes "u") ∧
    ∃ m2, add_arg {} (.array [.basic (.uint32 7)] (strBytes "au")) = some m2 ∧
      get_signature m2 = some (strBytes "u") := by
  refine ⟨(C9_value_array_get_type.1 (.basic (.uint32 7)) [] (strBytes "au")
    ).trans rfl,
    C9_value_array_get_type.2.1 (.basic (.uint32 7)) []
      (strBytes "u") rfl, ?_⟩
  refine ⟨_, rfl, ?_⟩
  exact C9_value_array_get_type.2.2.2.2 {} (.basic (.uint32 7)) []
    (strBytes "au") (strBytes "u") _ rfl rfl

/-! ## Claim C8 -/

/-- Claim C8: when `handle_message` dispatches a method call that matched a
registered handler, then (i) on handler result `NoReply` nothing is sent;
(ii) with `NO_REPLY_EXPECTED` set nothing is sent whatever the result; (iii)
with the flag clear and result `EmptyReply`, exactly the bare
`MethodReturn(reply_serial = incoming serial)` is sent; (iv) with the flag
clear and result `Reply(vals)`, exactly one `MethodReturn` is sent whose
ReplySerial header is the incoming serial, whose Signature header accumulates
each value's type in order, and whose body is the in-order encoding of the
values. -/
theorem C8_dispatch_reply (hs : MthHandlers) (msg : Msg) (mth : MethodCallM)
    (e : (List Nat × List Nat × List Nat) ×
         (MethodCallM → Except DispatchErrorM MethodRetVal))
    (he : hs.find? (fun x => x.1 = (mth.path, mth.iface, mth.member))
            = some e) :
    (e.2 mth = .ok .noReply →
       handle_method_call hs msg mth = some (.ok (), [])) ∧
    (∀ val, msg.flags.land FLAGS_NO_REPLY_EXPECTED ≠ 0 → e.2 mth = .ok val →
       handle_method_call hs msg mth = some (.ok (), [])) ∧
    (msg.flags.land FLAGS_NO_REPLY_EXPECTED = 0 → e.2 mth = .ok .emptyReply →
       handle_method_call hs msg mth
         = some (.ok (), [create_method_return msg.serial]) ∧
       get_header (create_method_return msg.serial) HEADER_FIELD_REPLY_SERIAL
         = some ⟨HEADER_FIELD_REPLY_SERIAL, .basic (.uint32 msg.serial),
                 strBytes "u"⟩) ∧
    (∀ vals reply2 ts, msg.flags.land FLAGS_NO_REPLY_EXPECTED = 0 →
       e.2 mth = .ok (.reply vals) →
       add_args (create_method_return msg.serial) vals = some reply2 →
       vals.mapM value_get_type = some ts →
       handle_method_call hs msg mth = some (.ok (), [reply2]) ∧
       get_header reply2 HEADER_FIELD_REPLY_SERIAL
         = some ⟨HEADER_FIELD_REPLY_SERIAL, .basic (.uint32 msg.serial),
                 strBytes "u"⟩ ∧
       (get_signature reply2).getD [] = ts.flatten ∧
       reply2.body = args_body vals []) := by
  refine ⟨?_, ?_, ?_, ?_⟩
  · intro h1
    unfold handle_method_call dispatch_mth
    rw [he]
    dsimp only
    rw [h1]
  · intro val hflag h2
    unfold handle_method_call dispatch_mth
    rw [he]
    dsimp only
    rw [h2]
    match val with
    | .noReply => rfl
    | .emptyReply => simp [hflag]
    | .reply r => simp [hflag]
  · intro hflag h3
    constructor
    · unfold handle_method_call dispatch_mth
      rw [he]
      dsimp only
      rw [h3]
      simp [hflag, add_args]
    · rfl
  · intro vals reply2 ts hflag h4 ha hts
    refine ⟨?_, ?_, ?_, ?_⟩
    · unfold handle_method_call dispatch_mth
      rw [he]
      dsimp only
      rw [h4]
      simp [hflag, ha]
    · rw [add_args_find_ne vals _ reply2 HEADER_FIELD_REPLY_SERIAL
        (by decide) ha]
      rfl
    · rw [add_args_sig vals _ reply2 ts hts ha]
      rfl
    · rw [add_args_body vals _ reply2 ha]
      rfl

/-- Witness for C8: the fixture handler replies `Int32 10` to `msgW`
(serial 44); the dispatcher sends exactly `replyW`, whose ReplySerial is 44,
whose signature is `"i"` and whose body is the little-endian bytes of 10. -/
theorem C8_dispatch_reply_witness :
    handle_method_call handlerW msgW mthW = some (.ok (), [replyW]) ∧
    get_header replyW HEADER_FIELD_REPLY_SERIAL
      = some ⟨HEADER_FIELD_REPLY_SERIAL, .basic (.uint32 44), strBytes "u"⟩ ∧
    (get_signature replyW).getD [] = strBytes "i" ∧
    replyW.body = [10, 0, 0, 0] := by
  have h := (C8_dispatch_reply handlerW msgW mthW _ rfl).2.2.2
    [.basic (.int32 10)] replyW [strBytes "i"] rfl rfl rfl rfl
  exact ⟨h.1, h.2.1, h.2.2.1, rfl⟩

/-! ## Claim C3 -/

theorem call_sync_loop_spec (serial bodyFuel : Nat) (pre : List Msg)
    (m : Msg) (rest : List Msg) (sn : Nat) (hm : awaits serial m) :
    ∀ localq, (∀ x ∈ pre, skips serial x) →
    call_sync_loop serial bodyFuel localq ⟨sn, [], pre ++ m :: rest⟩
      = .done (get_body bodyFuel m)
          ⟨sn, push_queue (localq ++ pre) [], rest⟩ := by
  induction pre with
  | nil =>
    intro localq _
    obtain ⟨hf, hfind, hobj⟩ := hm
    unfold call_sync_loop
    dsimp only [read_msg, List.nil_append]
    rw [hfind]
    dsimp only
    rw [hobj]
    dsimp only
    rw [if_pos rfl]
    simp
  | cons x pre ih =>
    intro localq hpre
    have hx := hpre x (List.mem_cons_self x pre)
    have hrec := ih (localq ++ [x])
      (fun y hy => hpre y (List.mem_cons_of_mem x hy))
    unfold call_sync_loop
    dsimp only [read_msg, List.cons_append]
    rcases hx with hnone | ⟨hf, rs, hfind, hobj, hne⟩
    · rw [hnone]
      dsimp only
      rw [hrec]
      simp [push_queue_eq]
    · rw [hfind]
      dsimp only
      rw [hobj]
      dsimp only
      rw [if_neg hne]
      rw [hrec]
      simp [push_queue_eq]

/-- Claim C3, counterexample: with the socket scripted to yield messages with
reply-serials 99, 98 and then the awaited 5, `call_sync` returns the third
message's body but re-queues the two skipped messages REVERSED: the
connection queue ends as [98-message, 99-message], so the next `read_msg`
returns the 98-message — not the first-received 99-message as the claim's
"re-queued in their original receive order" requires. -/
theorem C3_counterexample :
    call_sync ⟨5, [], [replyMsg 99, replyMsg 98, replyMsgBody 5]⟩
        { message_type := 1 } 9
      = .done (.ok (some [.basic (.byte 66)]))
          ⟨6, [replyMsg 98, replyMsg 99], []⟩ ∧
    read_msg ⟨6, [replyMsg 98, replyMsg 99], []⟩
      = some (replyMsg 98, ⟨6, [replyMsg 99], []⟩) ∧
    replyMsg 98 ≠ replyMsg 99 := by
  refine ⟨?_, rfl, ?_⟩
  · have h := call_sync_loop_spec 5 9 [replyMsg 99, replyMsg 98]
      (replyMsgBody 5) [] 6 ⟨_, rfl, rfl⟩ []
      (by
        intro x hx
        simp only [List.mem_cons, List.not_mem_nil, or_false] at hx
        rcases hx with rfl | rfl
        · exact Or.inr ⟨_, 99, rfl, rfl, by decide⟩
        · exact Or.inr ⟨_, 98, rfl, rfl, by decide⟩)
    exact h
  · intro h
    have := congrArg (fun mm => mm.headers) h
    simp [replyMsg] at this

/-- Claim C3 (amended): `call_sync` re-queues the `n` non-matching messages
read before the matching reply in REVERSE receive order (each is pushed to
the front of the connection queue), though still ahead of any fresh socket
data; for `n = 1` this coincides with original order.  In the scripted
`99, serial, 99` scenario the middle body is returned and the two
`reply-serial = 99` messages do come back in original order — the first from
the queue, the second straight from the socket (it was never read during the
call) — which the witness below instantiates. -/
theorem C3_requeue_reversed (st : ConnState) (mbuf : Msg) (bodyFuel : Nat)
    (pre : List Msg) (m : Msg) (rest : List Msg)
    (hq : st.queue = []) (hsock : st.socket = pre ++ m :: rest)
    (htype : mbuf.message_type = 1)
    (hflags : mbuf.flags.land FLAGS_NO_REPLY_EXPECTED = 0)
    (hpre : ∀ x ∈ pre, skips st.serial x) (hm : awaits st.serial m) :
    call_sync st mbuf bodyFuel
      = .done (get_body bodyFuel m)
          ⟨(st.serial + 1) % 2 ^ 32, pre.reverse, rest⟩ := by
  unfold call_sync next_serial
  rw [if_neg (by simp [htype, hflags])]
  dsimp only
  have hst : ({ st with serial := (st.serial + 1) % 2 ^ 32 } : ConnState)
      = ⟨(st.serial + 1) % 2 ^ 32, [], pre ++ m :: rest⟩ := by
    rw [← hq, ← hsock]
  rw [hst]
  rw [call_sync_loop_spec st.serial bodyFuel pre m rest _ hm [] hpre]
  rw [push_queue_eq]
  simp

/-- Witness for C3: the scripted scenario of the claim — socket yields
reply-serials 99, 7, 99 and `call_sync` awaits serial 7.  The middle body is
returned, the first 99-message sits in the queue and the second never left
the socket. -/
theorem C3_requeue_reversed_witness :
    call_sync ⟨7, [], [replyMsg 99, replyMsgBody 7, replyMsg 99]⟩
        { message_type := 1 } 9
      = .done (.ok (some [.basic (.byte 66)]))
          ⟨8, [replyMsg 99], [replyMsg 99]⟩ := by
  have h := C3_requeue_reversed ⟨7, [], [replyMsg 99, replyMsgBody 7,
      replyMsg 99]⟩ { message_type := 1 } 9 [replyMsg 99] (replyMsgBody 7)
    [replyMsg 99] rfl rfl rfl rfl
    (by
      intro x hx
      simp only [List.mem_cons, List.not_mem_nil, or_false] at hx
      subst hx
      exact Or.inr ⟨_, 99, rfl, rfl, by decide⟩)
    ⟨_, rfl, rfl⟩
  exact h

/-! ## Claim C7 -/

theorem align_to_err (buf : List Nat) (offset align : Nat)
    (e : DemarshalError) (h : align_to buf offset align = .err e) :
    e = .MessageTooShort := by
  unfold align_to at h
  split at h
  · exact absurd h (by simp)
  · dsimp only at h
    split at h
    · injection h with h2
      exact h2.symm
    · exact absurd h (by simp)

theorem demarshal_int_ne_etb (buf : List Nat) (offset len : Nat) (sg : Bool) :
    demarshal_int buf offset len sg ≠ .err .ElementTooBig := by
  intro h
  unfold demarshal_int at h
  cases ha : align_to buf offset len with
  | ok p =>
    obtain ⟨b2, o2⟩ := p
    rw [ha] at h
    dsimp only at h
    split at h
    · simp at h
    · split at h <;> split at h <;> simp at h
  | err e2 =>
    rw [ha] at h
    have he2 := align_to_err _ _ _ _ ha
    subst he2
    simp at h
  | crash => rw [ha] at h; simp at h
  | fuelOut => rw [ha] at h; simp at h

theorem demarshal_byte_ne_etb (buf : List Nat) (offset : Nat) :
    demarshal_byte buf offset ≠ .err .ElementTooBig := by
  intro h
  cases buf <;> simp [demarshal_byte] at h

theorem demarshal_bool_ne_etb (buf : List Nat) (offset : Nat) :
    demarshal_bool buf offset ≠ .err .ElementTooBig := by
  intro h
  unfold demarshal_bool at h
  cases ha : align_to buf offset 4 with
  | ok p =>
    obtain ⟨b2, o2⟩ := p
    rw [ha] at h
    dsimp only at h
    split at h
    · simp at h
    · split at h
      · split at h
        · simp at h
        · split at h <;> simp at h
      · simp at h
  | err e2 =>
    rw [ha] at h
    have he2 := align_to_err _ _ _ _ ha
    subst he2
    simp at h
  | crash => rw [ha] at h; simp at h
  | fuelOut => rw [ha] at h; simp at h

theorem demarshal_string_tail_ne_etb (buf : List Nat)
    (offset count_size : Nat) (is_path : Bool) (len : Nat) :
    demarshal_string_tail buf offset count_size is_path len
      ≠ .err .ElementTooBig := by
  intro h
  unfold demarshal_string_tail at h
  split at h
  · simp at h
  · split at h
    · simp at h
    · split at h
      · simp at h
      · dsimp only at h
        split at h
        · simp at h
        · split at h
          · simp at h
          · split at h <;> simp at h

theorem demarshal_string_ne_etb (buf : List Nat) (offset count_size : Nat)
    (is_path : Bool) :
    demarshal_string buf offset count_size is_path
      ≠ .err .ElementTooBig := by
  intro h
  unfold demarshal_string at h
  split at h
  · simp at h
  · simp at h
  · exact demarshal_string_tail_ne_etb _ _ _ _ _ h
  · exact demarshal_string_tail_ne_etb _ _ _ _ _ h
  · simp at h

theorem withSig_ne_etb (rest : List Nat) (r : DRes (Value × List Nat × Nat))
    (hr : r ≠ .err .ElementTooBig) :
    withSig rest r ≠ .err .ElementTooBig := by
  intro h
  cases r with
  | ok p => obtain ⟨v, b, o⟩ := p; simp [withSig] at h
  | err e =>
    simp only [withSig] at h
    injection h with h2
    exact hr (by rw [h2])
  | crash => simp [withSig] at h
  | fuelOut => simp [withSig] at h

theorem withSig_ok_sig (rest : List Nat) (r : DRes (Value × List Nat × Nat))
    (v : Value) (b : List Nat) (o : Nat) (s2 : List Nat)
    (h : withSig rest r = .ok (v, b, o, s2)) : s2 = rest := by
  cases r with
  | ok p =>
    obtain ⟨v2, b2, o2⟩ := p
    simp only [withSig] at h
    injection h with h2
    injection h2 with h3 h4
    injection h4 with h5 h6
    injection h6 with h7 h8
    exact h8.symm
  | err e => simp [withSig] at h
  | crash => simp [withSig] at h
  | fuelOut => simp [withSig] at h

theorem av_free_tail (c : Nat) (rest : List Nat) (h : av_free (c :: rest)) :
    av_free rest := fun x hx => h x (List.mem_cons_of_mem c hx)

theorem av_free_nil : av_free [] := fun x hx => absurd hx (List.not_mem_nil x)

/-- Core invariant for C7: on a signature free of `'a'` (97) and `'v'` (118),
no demarshal path can produce `ElementTooBig` (the array length check is its
only source), and the signature remainder a successful decode returns is
again `'a'`/`'v'`-free; the array element loop, run on an `'a'`/`'v'`-free
element signature, cannot produce it either. -/
theorem no_etb_all (fuel : Nat) :
    (∀ buf off sig, av_free sig →
       (demarshalF fuel buf off sig ≠ .err .ElementTooBig ∧
        ∀ v b o s2, demarshalF fuel buf off sig = .ok (v, b, o, s2) →
          av_free s2)) ∧
    (∀ buf off sig acc, av_free sig →
       (structLoopF fuel buf off sig acc ≠ .err .ElementTooBig ∧
        ∀ vs b o s2, structLoopF fuel buf off sig acc = .ok (vs, b, o, s2) →
          av_free s2)) ∧
    (∀ buf off sig, av_free sig →
       (demarshal_structF fuel buf off sig ≠ .err .ElementTooBig ∧
        ∀ v b o s2, demarshal_structF fuel buf off sig = .ok (v, b, o, s2) →
          av_free s2)) ∧
    (∀ buf off sig endOff acc lastCopy, av_free sig →
       arrayLoopF fuel buf off sig endOff acc lastCopy
         ≠ .err .ElementTooBig) := by
  induction fuel with
  | zero =>
    refine ⟨?_, ?_, ?_, ?_⟩
    · intro buf off sig hav
      exact ⟨by intro h; simp [demarshalF] at h,
        by intro v b o s2 h; simp [demarshalF] at h⟩
    · intro buf off sig acc hav
      exact ⟨by intro h; simp [structLoopF] at h,
        by intro vs b o s2 h; simp [structLoopF] at h⟩
    · intro buf off sig hav
      exact ⟨by intro h; simp [demarshal_structF] at h,
        by intro v b o s2 h; simp [demarshal_structF] at h⟩
    · intro buf off sig endOff acc lastCopy hav h
      simp [arrayLoopF] at h
  | succ fuel ih =>
    obtain ⟨ihA, ihB, ihC, ihD⟩ := ih
    refine ⟨?_, ?_, ?_, ?_⟩
    · -- demarshalF
      intro buf off sig hav
      match sig with
      | [] =>
        constructor
        · intro h; simp [demarshalF] at h
        · intro v b o s2 h; simp [demarshalF] at h
      | typ :: rest =>
        have h97 := (hav typ (List.mem_cons_self typ rest)).1
        have h118 := (hav typ (List.mem_cons_self typ rest)).2
        have hrest := av_free_tail typ rest hav
        constructor
        · intro h
          simp only [demarshalF] at h
          split at h
          · exact withSig_ne_etb _ _ (demarshal_byte_ne_etb _ _) h
          · exact withSig_ne_etb _ _ (demarshal_bool_ne_etb _ _) h
          · exact withSig_ne_etb _ _ (demarshal_int_ne_etb _ _ _ _) h
          · exact withSig_ne_etb _ _ (demarshal_int_ne_etb _ _ _ _) h
          · exact withSig_ne_etb _ _ (demarshal_int_ne_etb _ _ _ _) h
          · exact withSig_ne_etb _ _ (demarshal_int_ne_etb _ _ _ _) h
          · exact withSig_ne_etb _ _ (demarshal_int_ne_etb _ _ _ _) h
          · exact withSig_ne_etb _ _ (demarshal_int_ne_etb _ _ _ _) h
          · exact withSig_ne_etb _ _ (demarshal_string_ne_etb _ _ _ _) h
          · exact withSig_ne_etb _ _ (demarshal_string_ne_etb _ _ _ _) h
          · exact withSig_ne_etb _ _ (demarshal_string_ne_etb _ _ _ _) h
          · exact h97 rfl
          · exact (ihC buf off rest hrest).1 h
          · exact (ihC buf off rest hrest).1 h
          · exact h118 rfl
          · simp at h
        · intro v b o s2 h
          simp only [demarshalF] at h
          split at h
          · exact (withSig_ok_sig _ _ _ _ _ _ h) ▸ hrest
          · exact (withSig_ok_sig _ _ _ _ _ _ h) ▸ hrest
          · exact (withSig_ok_sig _ _ _ _ _ _ h) ▸ hrest
          · exact (withSig_ok_sig _ _ _ _ _ _ h) ▸ hrest
          · exact (withSig_ok_sig _ _ _ _ _ _ h) ▸ hrest
          · exact (withSig_ok_sig _ _ _ _ _ _ h) ▸ hrest
          · exact (withSig_ok_sig _ _ _ _ _ _ h) ▸ hrest
          · exact (withSig_ok_sig _ _ _ _ _ _ h) ▸ hrest
          · exact (withSig_ok_sig _ _ _ _ _ _ h) ▸ hrest
          · exact (withSig_ok_sig _ _ _ _ _ _ h) ▸ hrest
          · exact (withSig_ok_sig _ _ _ _ _ _ h) ▸ hrest
          · exact absurd rfl h97
          · exact (ihC buf off rest hrest).2 v b o s2 h
          · exact (ihC buf off rest hrest).2 v b o s2 h
          · exact absurd rfl h118
          · simp at h
    · -- structLoopF
      intro buf off sig acc hav
      match sig with
      | [] =>
        constructor
        · intro h; simp [structLoopF] at h
        · intro vs b o s2 h; simp [structLoopF] at h
      | typ :: rest =>
        have hrest := av_free_tail typ rest hav
        constructor
        · intro h
          simp only [structLoopF] at h
          split at h
          · simp at h
          · split at h
            · rename_i e heq
              injection h with h2
              subst h2
              exact (ihA buf off (typ :: rest) hav).1 heq
            · simp at h
            · simp at h
            · rename_i v2 b2 o2 sig2 heq
              have hsig2 := (ihA buf off (typ :: rest) hav).2 v2 b2 o2
                sig2 heq
              exact (ihB b2 o2 sig2 (acc ++ [v2]) hsig2).1 h
        · intro vs b o s2 h
          simp only [structLoopF] at h
          split at h
          · injection h with h2
            injection h2 with h3 h4
            injection h4 with h5 h6
            injection h6 with h7 h8
            exact h8 ▸ hrest
          · split at h
            · simp at h
            · simp at h
            · simp at h
            · rename_i v2 b2 o2 sig2 heq
              have hsig2 := (ihA buf off (typ :: rest) hav).2 v2 b2 o2
                sig2 heq
              exact (ihB b2 o2 sig2 (acc ++ [v2]) hsig2).2 vs b o s2 h
    · -- demarshal_structF
      intro buf off sig hav
      constructor
      · intro h
        simp only [demarshal_structF] at h
        split at h
        · simp at h
        · split at h
          · rename_i e heq
            injection h with h2
            subst h2
            have := align_to_err _ _ _ _ heq
            simp at this
          · simp at h
          · simp at h
          · rename_i b2 o2 heq
            split at h
            · rename_i e heq2
              injection h with h2
              subst h2
              exact (ihB b2 o2 sig [] hav).1 heq2
            · simp at h
            · simp at h
            · simp at h
      · intro v b o s2 h
        simp only [demarshal_structF] at h
        split at h
        · simp at h
        · split at h
          · simp at h
          · simp at h
          · simp at h
          · rename_i b2 o2 heq
            split at h
            · simp at h
            · simp at h
            · simp at h
            · rename_i vs2 b3 o3 rem heq2
              have hrem := (ihB b2 o2 sig [] hav).2 vs2 b3 o3 rem heq2
              injection h with h2
              injection h2 with h3 h4
              injection h4 with h5 h6
              injection h6 with h7 h8
              exact h8 ▸ hrem
    · -- arrayLoopF
      intro buf off sig endOff acc lastCopy hav
      intro h
      simp only [arrayLoopF] at h
      split at h
      · split at h
        · rename_i e heq
          injection h with h2
          subst h2
          exact (ihA buf off sig hav).1 heq
        · simp at h
        · simp at h
        · rename_i v2 b2 o2 sig2 heq
          exact ihD b2 o2 sig endOff (acc ++ [v2]) sig2 hav h
      · simp at h

/-- Claim C7, counterexample: the buffer `[8,0,0,0, 0,0,0,8, 0,0,0,0]` under
signature `aau` decodes an OUTER array length of 8 (≤ 2^26), yet
demarshalling returns `ElementTooBig` — propagated from the nested inner
array, whose own length field is `2^27`.  This contradicts the claim's "this
error is never returned when L is at most 2^26". -/
theorem C7_counterexample :
    demarshalF 99 [8, 0, 0, 0, 0, 0, 0, 8, 0, 0, 0, 0] 0 (strBytes "aau")
      = .err .ElementTooBig ∧
    demarshal_int [8, 0, 0, 0, 0, 0, 0, 8, 0, 0, 0, 0] 0 4 false
      = .ok (.basic (.uint32 8), [0, 0, 0, 8, 0, 0, 0, 0], 4) ∧
    (8 : Nat) ≤ 2 ^ 26 := by
  refine ⟨rfl, rfl, by norm_num⟩

/-- Claim C7 (amended): demarshalling an array whose decoded 4-byte length
field `L` exceeds `2^26` returns `ElementTooBig`, the check firing right
after the length decode, before any alignment, bounds check or element is
processed; when `L ≤ 2^26` the array's own check does not fire, and
`ElementTooBig` is not returned at all provided the element signature
contains no nested array or variant — with nesting (directly or through a
variant) the error can still propagate from an inner array whose own length
field exceeds `2^26`. -/
theorem C7_array_length_bound :
    (∀ fuel buf offset esig L buf1 off1, esig ≠ [] →
       demarshal_int buf offset 4 false
         = .ok (.basic (.uint32 L), buf1, off1) →
       L > 2 ^ 26 →
       demarshalF (fuel + 2) buf offset (97 :: esig) = .err .ElementTooBig) ∧
    (∀ fuel buf offset esig L buf1 off1, av_free esig →
       demarshal_int buf offset 4 false
         = .ok (.basic (.uint32 L), buf1, off1) →
       L ≤ 2 ^ 26 →
       demarshalF fuel buf offset (97 :: esig) ≠ .err .ElementTooBig) := by
  constructor
  · intro fuel buf offset esig L buf1 off1 hne hint hL
    simp only [demarshalF]
    simp only [demarshal_arrayF]
    rw [if_neg (by simp [Nat.lt_one_iff, List.length_eq_zero]; exact hne)]
    rw [hint]
    dsimp only
    rw [if_pos hL]
  · intro fuel buf offset esig L buf1 off1 hav hint hL
    cases fuel with
    | zero => intro h; simp [demarshalF] at h
    | succ f2 =>
      intro h
      simp only [demarshalF] at h
      cases f2 with
      | zero => simp [demarshal_arrayF] at h
      | succ g =>
        simp only [demarshal_arrayF] at h
        split at h
        · simp at h
        · rw [hint] at h
          dsimp only at h
          rw [if_neg (by omega)] at h
          cases hga : get_alignment (Char.ofNat (esig.headD 0)) with
          | none => rw [hga] at h; simp at h
          | some al =>
            rw [hga] at h
            dsimp only at h
            cases hal : align_to buf1 off1 al with
            | err e2 =>
              rw [hal] at h
              injection h with h2
              subst h2
              have := align_to_err _ _ _ _ hal
              simp at this
            | crash => rw [hal] at h; simp at h
            | fuelOut => rw [hal] at h; simp at h
            | ok p =>
              obtain ⟨b2, o2⟩ := p
              rw [hal] at h
              dsimp only at h
              split at h
              · simp at h
              · split at h
                · rename_i e heq
                  injection h with h2
                  subst h2
                  exact (no_etb_all g).2.2.2 b2 o2 esig (o2 + L) [] []
                    hav heq
                · simp at h
                · simp at h
                · split at h
                  · split at h <;> simp at h
                  · simp at h

/-- Witness for C7: an inner length field of `2^27` (buffer `[0,0,0,8]`,
signature `au`) is rejected with `ElementTooBig` before any element decode;
a well-formed `u`-array of length 4 never produces that error. -/
theorem C7_array_length_bound_witness :
    demarshalF 2 [0, 0, 0, 8] 0 (strBytes "au") = .err .ElementTooBig ∧
    demarshalF 99 [4, 0, 0, 0, 1, 0, 0, 0] 0 (strBytes "au")
      ≠ .err .ElementTooBig := by
  constructor
  · exact C7_array_length_bound.1 0 [0, 0, 0, 8] 0 (strBytes "u")
      134217728 [] 4 (by decide) (by rfl) (by norm_num)
  · exact C7_array_length_bound.2 99 [4, 0, 0, 0, 1, 0, 0, 0] 0
      (strBytes "u") 4 [1, 0, 0, 0] 4
      (by
        show av_free [117]
        intro c hc
        simp at hc
        subst hc
        norm_num)
      (by rfl) (by norm_num)

end DBus
